import Mathlib

/-!
Verification of the Asana-URL unfurling action
(`sprucehealth/unfurl-asana-urls-in-pr-bodies-action`).

The development shallowly embeds the two core modules:

* `src/getAsanaTaskGIDsFromText.ts` — the identifier extractor, an ordered
  chain of URL-shape matchers applied per line;
* `src/transformPRBody.ts` — the body transformer, which resolves task
  titles for collected URLs and rewrites the body line by line.

Strings are modelled as `List Char` (`Str`).  JavaScript regular
expressions used by the source are compiled by hand into deterministic
scanning functions; for each regex the backtracking behaviour was analysed
so that the functions below compute exactly the leftmost match (and the
capture value) the JS engine would produce.  Loops whose JS counterparts
advance a cursor are implemented with an explicit fuel argument so that
all definitions are structural and reduce inside the kernel; the fuel
bounds are chosen so that fuel never runs out on inputs reachable from
the source's control flow.

`fetchTaskTitle` (the injected asynchronous title lookup) is modelled as a
pure function `Str → Option Str`, `none` standing for a rejected promise.
With promises that settle immediately (the situation exercised by the
repository's tests) the insertion order of `taskInfoMap` is the order of
the deduplicated URL list, which is how `buildMap` below produces it.

`String.localeCompare` is modelled as code-unit lexicographic comparison;
the two agree on the domain actually compared by the source (decimal digit
strings captured by `\d+`).
-/

abbrev Str := List Char

/-- Character model of the JS regex `.` wildcard: any char except the four
ECMAScript line terminators `\n`, `\r`, U+2028, U+2029 (of which `\n`
cannot occur in a split line but the other three can). -/
def wildcardOk (c : Char) : Bool :=
  !(c = '\n' || c = '\r' || c = Char.ofNat 8232 || c = Char.ofNat 8233)

/-- Match a literal character sequence at the head of the input, returning
the remainder on success. -/
def matchLit : Str → Str → Option Str
  | [], l => some l
  | _ :: _, [] => none
  | p :: ps, c :: cs => if c = p then matchLit ps cs else none

/-- Longest run of decimal digits at the head of the input (the JS `\d+`
greedy match, which is final in every pattern position where it occurs). -/
def takeDigits (l : Str) : Str := l.takeWhile Char.isDigit

/-- Does `needle` occur at the head of `hay`? -/
def headMatches (needle hay : Str) : Bool := (matchLit needle hay).isSome

/-- JS `String.prototype.includes`: substring test. -/
def hasSub (needle : Str) : Str → Bool
  | [] => needle.isEmpty
  | l@(_ :: t) => headMatches needle l || hasSub needle t

/-- Offset of the first occurrence of `needle` in `hay` (JS `indexOf` with
start position 0). -/
def occAt (needle : Str) : Str → Option Nat
  | [] => if needle.isEmpty then some 0 else none
  | l@(_ :: t) =>
    if headMatches needle l then some 0 else (occAt needle t).map (· + 1)

/-- JS `hay.indexOf(needle, start)`: the start position is clamped to the
string length before searching. -/
def indexOfFrom (hay needle : Str) (start : Nat) : Option Nat :=
  let s := min start hay.length
  (occAt needle (hay.drop s)).map (· + s)

/-- JS `text.split('\r\n')`: split on the two-character separator, keeping
empty pieces, scanning left to right. -/
def splitCRLF : Str → List Str
  | [] => [[]]
  | '\r' :: '\n' :: rest => [] :: splitCRLF rest
  | c :: rest =>
    match splitCRLF rest with
    | [] => [[c]]
    | h :: t => (c :: h) :: t

/-- JS `text.split('\n')`. -/
def splitNL : Str → List Str
  | [] => [[]]
  | c :: rest =>
    if c = '\n' then [] :: splitNL rest
    else
      match splitNL rest with
      | [] => [[c]]
      | h :: t => (c :: h) :: t

/-- JS `lines.join('\n')`. -/
def joinNL : List Str → Str
  | [] => []
  | [l] => l
  | l :: ls => l ++ '\n' :: joinNL ls

/-! ### The identifier extractor (`getAsanaTaskGIDsFromText.ts`) -/

def litHttpsApp : Str := "https://app".toList
def litAsana : Str := "asana".toList
def litCom : Str := "com".toList

/-- The regex head `https:\/\/app.asana.com` shared by all five extraction
rules.  The two dots are *unescaped* in the source regexes, so they are
wildcards; everything else is literal.  Returns the remainder after the
head on success. -/
def matchAsanaHead (l : Str) : Option Str :=
  match matchLit litHttpsApp l with
  | none => none
  | some r =>
    match r with
    | [] => none
    | c :: r2 =>
      if wildcardOk c then
        match matchLit litAsana r2 with
        | none => none
        | some r3 =>
          match r3 with
          | [] => none
          | d :: r4 => if wildcardOk d then matchLit litCom r4 else none
      else none

/-- Leftmost-match driver: JS regex matching tries every start position in
order, so a whole-line rule is the first position at which the positional
matcher succeeds. -/
def scanStarts (f : Str → Option Str) : Str → Option Str
  | [] => f []
  | l@(_ :: t) =>
    match f l with
    | some g => some g
    | none => scanStarts f t

/-- Lazy `(?:.*?)` driver: try the continuation at the earliest position,
consuming only wildcard-compatible characters while moving forward. -/
def lazyScan (f : Str → Option Str) : Str → Option Str
  | [] => f []
  | l@(c :: t) =>
    match f l with
    | some g => some g
    | none => if wildcardOk c then lazyScan f t else none

def slashTaskSlash : Str := "/task/".toList
def slashItemSlash : Str := "/item/".toList

/-- Continuation of rule 1: `\/(?:task|item)\/(?<taskGID>\d+)`. -/
def taskItemAt (l : Str) : Option Str :=
  match matchLit slashTaskSlash l with
  | some r => let d := takeDigits r; if d.isEmpty then none else some d
  | none =>
    match matchLit slashItemSlash l with
    | some r => let d := takeDigits r; if d.isEmpty then none else some d
    | none => none

/-- Rule 1: `https:\/\/app.asana.com(?:.*?)\/(?:task|item)\/(?<taskGID>\d+)`. -/
def rule1 (line : Str) : Option Str :=
  scanStarts (fun s => (matchAsanaHead s).bind (lazyScan taskItemAt)) line

/-- Consume `/` followed by one or more digits, returning the digits and
the remainder. -/
def slashDigits (l : Str) : Option (Str × Str) :=
  match l with
  | '/' :: r =>
    let d := takeDigits r
    if d.isEmpty then none else some (d, r.drop d.length)
  | _ => none

def litProjectSeg : Str := "/project/".toList

/-- Continuation of rule 2: `\/project\/(?:\d+)\/task\/(?<taskGID>\d+)`. -/
def projTaskAt (l : Str) : Option Str :=
  match matchLit litProjectSeg l with
  | none => none
  | some r =>
    let d1 := takeDigits r
    if d1.isEmpty then none
    else
      match matchLit slashTaskSlash (r.drop d1.length) with
      | none => none
      | some r2 =>
        let d2 := takeDigits r2
        if d2.isEmpty then none else some d2

/-- Rule 2: `https:\/\/app.asana.com(?:.*?)\/project\/(?:\d+)\/task\/(?<taskGID>\d+)`. -/
def rule2 (line : Str) : Option Str :=
  scanStarts (fun s => (matchAsanaHead s).bind (lazyScan projTaskAt)) line

/-- Positional matcher of rule 3 after the head:
`\/\d+\/\d+\/project\/\d+\/task\/(?<taskGID>\d+)`. -/
def wsProjTaskAt (l : Str) : Option Str :=
  match slashDigits l with
  | none => none
  | some (_, r1) =>
    match slashDigits r1 with
    | none => none
    | some (_, r2) =>
      match matchLit litProjectSeg r2 with
      | none => none
      | some r3 =>
        let d := takeDigits r3
        if d.isEmpty then none
        else
          match matchLit slashTaskSlash (r3.drop d.length) with
          | none => none
          | some r4 =>
            let d2 := takeDigits r4
            if d2.isEmpty then none else some d2

/-- Rule 3: `https:\/\/app.asana.com\/\d+\/\d+\/project\/\d+\/task\/(?<taskGID>\d+)`. -/
def rule3 (line : Str) : Option Str :=
  scanStarts (fun s => (matchAsanaHead s).bind wsProjTaskAt) line

/-- A path segment of the legacy V0 URL form: `/` followed by either a run
of digits or one of the literal keywords `board`, `search`, `inbox`. -/
inductive Seg where
  | num : Str → Seg
  | key : Str → Seg
deriving DecidableEq

def litBoard : Str := "board".toList
def litSearch : Str := "search".toList
def litInbox : Str := "inbox".toList

def segKeywords : List Str := [litBoard, litSearch, litInbox]

/-- Maximal segment parse of the V0 rule body
`(?:\/(?:[0-9]+|board|search|inbox))` repeated: at each step consume `/`
followed by a maximal digit run (the regex alternation tries `[0-9]+`
first) or a keyword (tried in the regex's alternation order); stop at the
first position where no segment parses. -/
def parseSegs : Nat → Str → List Seg
  | 0, _ => []
  | fuel + 1, l =>
    match l with
    | '/' :: r =>
      let d := takeDigits r
      if d.isEmpty then
        match matchLit litBoard r with
        | some rest => Seg.key litBoard :: parseSegs fuel rest
        | none =>
          match matchLit litSearch r with
          | some rest => Seg.key litSearch :: parseSegs fuel rest
          | none =>
            match matchLit litInbox r with
            | some rest => Seg.key litInbox :: parseSegs fuel rest
            | none => []
      else Seg.num d :: parseSegs fuel (r.drop d.length)
    | _ => []

def segDigits : Seg → Option Str
  | Seg.num d => some d
  | Seg.key _ => none

/-- Capture value of the V0 regex on a maximal segment list: backtracking
of `(?:\/(?:[0-9]+|board|search|inbox))+(?:\/(?<taskGID>[0-9]+))+` yields
the digits of the last numeric segment that is not the first segment, and
fails when no such segment exists. -/
def tailLastNum : List Seg → Option Str
  | [] => none
  | _ :: rest => (rest.filterMap segDigits).getLast?

/-- Positional matcher of rule 4 after the head. -/
def v0Core (l : Str) : Option Str := tailLastNum (parseSegs (l.length + 1) l)

/-- Rule 4 (V0 fallback):
`https:\/\/app.asana.com(?:\/(?:[0-9]+|board|search|inbox))+(?:\/(?<taskGID>[0-9]+))+`. -/
def rule4 (line : Str) : Option Str :=
  scanStarts (fun s => (matchAsanaHead s).bind v0Core) line

def litInboxSeg : Str := "/inbox/".toList

/-- Positional matcher of rule 5 after the head:
`\/inbox\/\d+\/item\/(?<taskGID>\d+)`. -/
def inboxItemAt (l : Str) : Option Str :=
  match matchLit litInboxSeg l with
  | none => none
  | some r =>
    let d := takeDigits r
    if d.isEmpty then none
    else
      match matchLit slashItemSlash (r.drop d.length) with
      | none => none
      | some r2 =>
        let d2 := takeDigits r2
        if d2.isEmpty then none else some d2

/-- Rule 5: `https:\/\/app.asana.com\/inbox\/\d+\/item\/(?<taskGID>\d+)`. -/
def rule5 (line : Str) : Option Str :=
  scanStarts (fun s => (matchAsanaHead s).bind inboxItemAt) line

def taskMarker : Str := "/task/".toList

/-- Per-line identifier extraction: the fixed rule chain of
`getAsanaTaskGIDsFromText`, first match wins.  The V0 rule's result is
discarded when the line contains `/task/` (the source nulls the match and
falls through to rule 5). -/
def lineMatch (line : Str) : Option Str :=
  match rule1 line with
  | some g => some g
  | none =>
    match rule2 line with
    | some g => some g
    | none =>
      match rule3 line with
      | some g => some g
      | none =>
        match (if hasSub taskMarker line then none else rule4 line) with
        | some g => some g
        | none => rule5 line

/-- Code-unit lexicographic order on strings; models the sign of
`a.localeCompare(b)` on the decimal digit strings the source compares. -/
def lexLt : Str → Str → Bool
  | [], [] => false
  | [], _ :: _ => true
  | _ :: _, [] => false
  | a :: as, b :: bs => if a < b then true else if b < a then false else lexLt as bs

/-- The ascending order used for sorting extracted identifiers. -/
def gidLe (a b : Str) : Prop := lexLt b a = false

instance : DecidableRel gidLe := fun a b => instDecidableEqBool (lexLt b a) false

/-- Sorting model of `.sort((a, b) => a.localeCompare(b))`. -/
def sortLex (l : List Str) : List Str := List.insertionSort gidLe l

/-- Accumulator loop of `dedupFirst`. -/
def dedupFirstGo : List Str → List Str → List Str
  | _, [] => []
  | seen, x :: xs =>
    if x ∈ seen then dedupFirstGo seen xs else x :: dedupFirstGo (x :: seen) xs

/-- First-occurrence deduplication, the order produced by iterating a JS
`Set` built from a list. -/
def dedupFirst (l : List Str) : List Str := dedupFirstGo [] l

/-- The line decomposition of `getAsanaTaskGIDsFromText`:
`text.split('\r\n').flatMap(line => line.split('\n'))`. -/
def extractLines (text : Str) : List Str := (splitCRLF text).flatMap splitNL

/-- Model of `getAsanaTaskGIDsFromText`: per-line first-rule-wins extraction,
sorted, deduplicated, sorted again. -/
def getAsanaTaskGIDsFromText (text : Str) : List Str :=
  sortLex (dedupFirst (sortLex ((extractLines text).filterMap lineMatch)))

/-! ### The body transformer (`transformPRBody.ts`) -/

/-- The JS whitespace class `\s` (ECMAScript WhiteSpace ∪ LineTerminator). -/
def isJsSpace (c : Char) : Bool :=
  c = ' ' || c = '\t' || c = '\n' || c = '\r' ||
  c = Char.ofNat 11 || c = Char.ofNat 12 ||
  c = ' ' || c = ' ' ||
  (' ' ≤ c && c ≤ ' ') ||
  c = ' ' || c = ' ' || c = ' ' || c = ' ' ||
  c = '　' || c = '﻿'

/-- The negated class `[^\s<>"()]` of the URL-collection regex. -/
def urlRunChar (c : Char) : Bool :=
  !(isJsSpace c || c = '<' || c = '>' || c = Char.ofNat 34 || c = '(' || c = ')')

/-- The literal (escaped) URL head `https:\/\/app\.asana\.com\/` used by
`collectAllAsanaUrls` and by the markdown-link regex of the transformer. -/
def asanaLinkHead : Str := "https://app.asana.com/".toList

/-- Fueled scan of `collectAllAsanaUrls`: repeatedly find the next match of
`https:\/\/app\.asana\.com\/[^\s<>"()]+` and resume after it. -/
def collectUrlsF : Nat → Str → List Str
  | 0, _ => []
  | _, [] => []
  | fuel + 1, l@(_ :: t) =>
    match matchLit asanaLinkHead l with
    | some r =>
      let run := r.takeWhile urlRunChar
      if run.isEmpty then collectUrlsF fuel t
      else (asanaLinkHead ++ run) :: collectUrlsF fuel (r.drop run.length)
    | none => collectUrlsF fuel t

/-- Model of `collectAllAsanaUrls`: every (maximal, non-overlapping) Asana URL
occurrence in the text, in order. -/
def collectAllAsanaUrls (text : Str) : List Str := collectUrlsF (text.length + 1) text

/-- Model of `sanitizeTitleForMarkdown`: `title.replace(/\[/g, '(').replace(/\]/g, ')')` —
two global single-character replacements, i.e. two maps. -/
def sanitizeTitleForMarkdown (title : Str) : Str :=
  (title.map fun c => if c = '[' then '(' else c).map fun c => if c = ']' then ')' else c

structure TaskInfo where
  id : Str
  title : Str
  safeTitle : Str
deriving DecidableEq

structure TransformResult where
  body : Str
  changesApplied : Bool
  updatedCount : Nat
deriving DecidableEq

/-- The per-URL resolution step of `transformPRBody`: extract identifiers
from the URL, keep it only when exactly one was found, then consult the
title lookup; a failed lookup (rejected promise) drops the URL. -/
def taskEntry (lookup : Str → Option Str) (url : Str) : Option TaskInfo :=
  match getAsanaTaskGIDsFromText url with
  | [tid] =>
    match lookup tid with
    | some title => some ⟨tid, title, sanitizeTitleForMarkdown title⟩
    | none => none
  | _ => none

/-- Model of `taskInfoMap` as an association list in insertion order: unique
collected URLs (first occurrence kept) filtered through `taskEntry`.
Insertion order models lookups that settle immediately, in which case the
`Promise.all` continuations run in the order the lookups were issued. -/
def buildMap (body : Str) (lookup : Str → Option Str) : List (Str × TaskInfo) :=
  (dedupFirst (collectAllAsanaUrls body)).filterMap fun url =>
    (taskEntry lookup url).map fun info => (url, info)

/-- JS `Map.get` on the association list (keys are distinct by
construction, so assoc-list lookup agrees with the JS map). -/
def mapGet : List (Str × TaskInfo) → Str → Option TaskInfo
  | [], _ => none
  | (u, i) :: rest, url => if url = u then some i else mapGet rest url

/-- The markdown link text `[safe](url)` the transformer splices in. -/
def mkLinkStr (safe url : Str) : Str :=
  '[' :: (safe ++ (']' :: '(' :: (url ++ [')'])))

/-- One positional match of the transformer's markdown-link regex
`\[([^\]]+)\]\((https:\/\/app\.asana\.com\/[^)]+)\)`: returns
`(fullMatch, linkText, asanaUrl, rest)`.  The greedy negated classes are
deterministic here (no backtracking can extend or shrink them). -/
def matchAsanaLinkAt : Str → Option (Str × Str × Str × Str)
  | '[' :: r =>
    let lab := r.takeWhile fun c => c ≠ ']'
    if lab.isEmpty then none
    else
      match r.drop lab.length with
      | ']' :: '(' :: r2 =>
        match matchLit asanaLinkHead r2 with
        | some r3 =>
          let inner := r3.takeWhile fun c => c ≠ ')'
          if inner.isEmpty then none
          else
            match r3.drop inner.length with
            | ')' :: rest =>
              some (mkLinkStr lab (asanaLinkHead ++ inner), lab, asanaLinkHead ++ inner, rest)
            | _ => none
        | none => none
      | _ => none
  | _ => none

/-- Model of `line.matchAll(markdownRegex)` for the Asana markdown-link regex:
leftmost matches, resuming after each match. -/
def scanAsanaLinks : Nat → Str → List (Str × Str × Str)
  | 0, _ => []
  | _, [] => []
  | fuel + 1, l@(_ :: t) =>
    match matchAsanaLinkAt l with
    | some (full, lab, url, rest) => (full, lab, url) :: scanAsanaLinks fuel rest
    | none => scanAsanaLinks fuel t

/-- One positional match of the generic markdown-link regex
`\[([^\]]+)\]\(([^)]+)\)`: returns the match length and the remainder. -/
def matchAnyLinkAt : Str → Option (Nat × Str)
  | '[' :: r =>
    let lab := r.takeWhile fun c => c ≠ ']'
    if lab.isEmpty then none
    else
      match r.drop lab.length with
      | ']' :: '(' :: r2 =>
        let inner := r2.takeWhile fun c => c ≠ ')'
        if inner.isEmpty then none
        else
          match r2.drop inner.length with
          | ')' :: rest => some (lab.length + inner.length + 4, rest)
          | _ => none
      | _ => none
  | _ => none

/-- Fueled range scan of `findMarkdownLinkIndices`. -/
def findMdRangesF : Nat → Str → Nat → List (Nat × Nat)
  | 0, _, _ => []
  | _, [], _ => []
  | fuel + 1, l@(_ :: t), pos =>
    match matchAnyLinkAt l with
    | some (len, rest) => (pos, pos + len) :: findMdRangesF fuel rest (pos + len)
    | none => findMdRangesF fuel t (pos + 1)

/-- Model of `findMarkdownLinkIndices`: half-open `(start, end)` spans of every
markdown link in the line. -/
def findMarkdownLinkIndices (text : Str) : List (Nat × Nat) :=
  findMdRangesF (text.length + 1) text 0

/-- ECMAScript `GetSubstitution` for a string `searchValue` (no capture
groups): `$$`, `$&`, a dollar-backquote and a dollar-quote are active,
everything else is literal. -/
def getSubst (matched pre post : Str) : Str → Str
  | [] => []
  | c :: rest =>
    if c = '$' then
      match rest with
      | [] => ['$']
      | c2 :: rest2 =>
        if c2 = '$' then '$' :: getSubst matched pre post rest2
        else if c2 = '&' then matched ++ getSubst matched pre post rest2
        else if c2 = Char.ofNat 96 then pre ++ getSubst matched pre post rest2
        else if c2 = Char.ofNat 39 then post ++ getSubst matched pre post rest2
        else '$' :: c2 :: getSubst matched pre post rest2
    else c :: getSubst matched pre post rest

/-- JS `hay.replace(needle, repl)` with a string search value: replace the
first occurrence, processing `$`-substitutions in the replacement; return
`hay` unchanged when `needle` does not occur. -/
def replaceFirst (hay needle repl : Str) : Str :=
  match occAt needle hay with
  | none => hay
  | some i =>
    hay.take i ++
      getSubst needle (hay.take i) (hay.drop (i + needle.length)) repl ++
      hay.drop (i + needle.length)

/-- The existing-markdown-link pass of the transformer: for each match of
the Asana link regex (computed on the untouched line), a resolved URL
whose link text equals the raw title or contains `[` is only counted;
otherwise the full match is replaced (first occurrence in the current
line) by `[safeTitle](url)`. -/
def applyMdMatches (m : List (Str × TaskInfo)) :
    List (Str × Str × Str) → Str → Nat → Str × Nat
  | [], line, cnt => (line, cnt)
  | (full, lab, url) :: rest, line, cnt =>
    match mapGet m url with
    | none => applyMdMatches m rest line cnt
    | some info =>
      if lab = info.title ∨ '[' ∈ lab then applyMdMatches m rest line (cnt + 1)
      else applyMdMatches m rest (replaceFirst line full (mkLinkStr info.safeTitle url)) (cnt + 1)

/-- The plain-URL `while` loop of the transformer for one URL.  Faithful
to the source's slip: occurrences are searched in the frozen
`updatedLine` snapshot, each replacement rebuilds `line` from that
snapshot, and after a replacement the cursor advances by the length of
the *replacement*.  The fuel covers every terminating run of the JS loop
(the cursor strictly advances whenever the URL is non-empty). -/
def replaceLoop (updated : Str) (ranges : List (Nat × Nat)) (url newLink : Str) :
    Nat → Nat → Str → Nat → Str × Nat
  | 0, _, line, cnt => (line, cnt)
  | fuel + 1, start, line, cnt =>
    match indexOfFrom updated url start with
    | none => (line, cnt)
    | some urlIndex =>
      if ranges.any fun rg => rg.1 ≤ urlIndex && urlIndex + url.length ≤ rg.2 then
        replaceLoop updated ranges url newLink fuel (urlIndex + url.length) line cnt
      else
        replaceLoop updated ranges url newLink fuel (urlIndex + newLink.length)
          (updated.take urlIndex ++ newLink ++ updated.drop (urlIndex + url.length)) (cnt + 1)

/-- The plain-URL pass over all map entries, in map insertion order. -/
def applyPlainUrls (updated : Str) (ranges : List (Nat × Nat)) :
    List (Str × TaskInfo) → Str → Nat → Str × Nat
  | [], line, cnt => (line, cnt)
  | (url, info) :: rest, line, cnt =>
    let p := replaceLoop updated ranges url (mkLinkStr info.safeTitle url)
      (updated.length + 2) 0 line cnt
    applyPlainUrls updated ranges rest p.1 p.2

/-- The per-line body of the transformer's rewrite loop: existing-link
pass, then markdown ranges recomputed on the updated line, then the
plain-URL pass. -/
def processLine (m : List (Str × TaskInfo)) (line : Str) : Str × Nat :=
  let p := applyMdMatches m (scanAsanaLinks (line.length + 1) line) line 0
  let ranges := findMarkdownLinkIndices p.1
  applyPlainUrls p.1 ranges m p.1 p.2

/-- Model of `transformPRBody`: empty-body short circuit, URL collection and title
resolution, early return when nothing resolved, then the line-by-line
rewrite joined back with `\n`. -/
def transformPRBody (body : Str) (lookup : Str → Option Str) : TransformResult :=
  if body.isEmpty then ⟨[], false, 0⟩
  else
    let m := buildMap body lookup
    if m.isEmpty then ⟨body, false, 0⟩
    else
      let processed := (splitNL body).map fun line =>
        let p := processLine m line
        p
      let cnt := (processed.map Prod.snd).foldr (· + ·) 0
      ⟨joinNL (processed.map Prod.fst), decide (0 < cnt), cnt⟩

/-- The sequence of task identifiers on which `fetchTaskTitle` is invoked
by `transformPRBody`: none for the empty body, otherwise one invocation
per unique collected URL that yielded exactly one identifier (whether or
not the lookup then succeeds). -/
def invokedTaskIds (body : Str) : List Str :=
  if body.isEmpty then []
  else
    (dedupFirst (collectAllAsanaUrls body)).filterMap fun url =>
      match getAsanaTaskGIDsFromText url with
      | [tid] => some tid
      | _ => none

/-! ### Order lemmas for the identifier sort -/

theorem lexLt_irrefl : ∀ a : Str, lexLt a a = false
  | [] => rfl
  | _ :: as => by simp [lexLt, lt_irrefl, lexLt_irrefl as]

theorem lexLt_trans : ∀ a b c : Str, lexLt a b = true → lexLt b c = true → lexLt a c = true
  | [], [], _, h1, _ => by simp [lexLt] at h1
  | [], _ :: _, [], _, h2 => by simp [lexLt] at h2
  | [], _ :: _, _ :: _, _, _ => rfl
  | _ :: _, [], _, h1, _ => by simp [lexLt] at h1
  | _ :: _, _ :: _, [], _, h2 => by simp [lexLt] at h2
  | a :: as, b :: bs, c :: cs, h1, h2 => by
    simp only [lexLt] at h1 h2 ⊢
    rcases lt_trichotomy a b with hab | hab | hab
    · rcases lt_trichotomy b c with hbc | hbc | hbc
      · simp [lt_trans hab hbc]
      · subst hbc; simp [hab]
      · rw [if_neg (asymm hbc), if_pos hbc] at h2; exact absurd h2 (by simp)
    · subst hab
      rw [if_neg (lt_irrefl a), if_neg (lt_irrefl a)] at h1
      rcases lt_trichotomy a c with hbc | hbc | hbc
      · simp [hbc]
      · subst hbc
        rw [if_neg (lt_irrefl a), if_neg (lt_irrefl a)] at h2 ⊢
        exact lexLt_trans as bs cs h1 h2
      · rw [if_neg (asymm hbc), if_pos hbc] at h2; exact absurd h2 (by simp)
    · rw [if_neg (asymm hab), if_pos hab] at h1; exact absurd h1 (by simp)

theorem lexLt_asymm (a b : Str) (h : lexLt a b = true) : lexLt b a = false := by
  by_contra hne
  have h2 : lexLt b a = true := by revert hne; cases lexLt b a <;> simp
  have h3 := lexLt_trans a b a h h2
  rw [lexLt_irrefl] at h3
  exact absurd h3 (by simp)

theorem lexLt_connex : ∀ a b : Str, lexLt a b = false → lexLt b a = false → a = b
  | [], [], _, _ => rfl
  | [], _ :: _, h1, _ => by simp [lexLt] at h1
  | _ :: _, [], _, h2 => by simp [lexLt] at h2
  | a :: as, b :: bs, h1, h2 => by
    simp only [lexLt] at h1 h2
    rcases lt_trichotomy a b with hab | hab | hab
    · rw [if_pos hab] at h1; exact absurd h1 (by simp)
    · subst hab
      rw [if_neg (lt_irrefl a), if_neg (lt_irrefl a)] at h1 h2
      rw [lexLt_connex as bs h1 h2]
    · rw [if_pos hab] at h2; exact absurd h2 (by simp)

instance : IsTrans Str gidLe := by
  constructor
  intro a b c h1 h2
  show lexLt c a = false
  by_contra hne
  have hca : lexLt c a = true := by revert hne; cases lexLt c a <;> simp
  by_cases hbc : lexLt b c = true
  · have := lexLt_trans b c a hbc hca
    rw [h1] at this
    exact absurd this (by simp)
  · have hbc' : lexLt b c = false := by revert hbc; cases lexLt b c <;> simp
    have : c = b := lexLt_connex c b h2 hbc'
    subst this
    rw [h1] at hca
    exact absurd hca (by simp)

instance : IsTotal Str gidLe := by
  constructor
  intro a b
  by_cases h : lexLt b a = true
  · right; exact lexLt_asymm b a h
  · left; show lexLt b a = false
    revert h; cases lexLt b a <;> simp

theorem sortLex_perm (l : List Str) : List.Perm (sortLex l) l :=
  List.perm_insertionSort gidLe l

theorem sortLex_sorted (l : List Str) : List.Sorted gidLe (sortLex l) :=
  List.sorted_insertionSort gidLe l

theorem mem_dedupFirstGo :
    ∀ (l seen : List Str) (x : Str), x ∈ dedupFirstGo seen l ↔ (x ∈ l ∧ x ∉ seen)
  | [], seen, x => by simp [dedupFirstGo]
  | y :: ys, seen, x => by
    by_cases hy : y ∈ seen
    · rw [dedupFirstGo, if_pos hy, mem_dedupFirstGo ys seen x]
      constructor
      · rintro ⟨h1, h2⟩; exact ⟨List.mem_cons_of_mem _ h1, h2⟩
      · rintro ⟨h1, h2⟩
        rcases List.mem_cons.mp h1 with h | h
        · subst h; exact absurd hy h2
        · exact ⟨h, h2⟩
    · rw [dedupFirstGo, if_neg hy]
      constructor
      · intro h
        rcases List.mem_cons.mp h with h | h
        · subst h; exact ⟨List.mem_cons_self _ _, hy⟩
        · have := (mem_dedupFirstGo ys (y :: seen) x).mp h
          exact ⟨List.mem_cons_of_mem _ this.1,
            fun hx => this.2 (List.mem_cons_of_mem _ hx)⟩
      · rintro ⟨h1, h2⟩
        by_cases hxy : x = y
        · subst hxy; exact List.mem_cons_self _ _
        · rcases List.mem_cons.mp h1 with h | h
          · exact absurd h hxy
          · exact List.mem_cons_of_mem _ ((mem_dedupFirstGo ys (y :: seen) x).mpr
              ⟨h, fun hx => (List.mem_cons.mp hx).elim hxy h2⟩)

theorem nodup_dedupFirstGo : ∀ (l seen : List Str), (dedupFirstGo seen l).Nodup
  | [], _ => List.nodup_nil
  | y :: ys, seen => by
    by_cases hy : y ∈ seen
    · rw [dedupFirstGo, if_pos hy]; exact nodup_dedupFirstGo ys seen
    · rw [dedupFirstGo, if_neg hy]
      refine List.nodup_cons.mpr ⟨fun hmem => ?_, nodup_dedupFirstGo ys (y :: seen)⟩
      exact ((mem_dedupFirstGo ys (y :: seen) y).mp hmem).2 (List.mem_cons_self _ _)

theorem length_dedupFirstGo_le : ∀ (l seen : List Str), (dedupFirstGo seen l).length ≤ l.length
  | [], _ => Nat.le_refl _
  | y :: ys, seen => by
    by_cases hy : y ∈ seen
    · rw [dedupFirstGo, if_pos hy]
      exact Nat.le_succ_of_le (length_dedupFirstGo_le ys seen)
    · rw [dedupFirstGo, if_neg hy]
      exact Nat.succ_le_succ (length_dedupFirstGo_le ys (y :: seen))

theorem pairwise_lexLt_of_sorted_nodup :
    ∀ l : List Str, List.Sorted gidLe l → l.Nodup →
      l.Pairwise fun a b => lexLt a b = true
  | [], _, _ => List.Pairwise.nil
  | a :: t, hs, hn => by
    rcases List.pairwise_cons.mp hs with ⟨hhead, htail⟩
    rcases List.nodup_cons.mp hn with ⟨hmem, hnt⟩
    refine List.pairwise_cons.mpr ⟨fun b hb => ?_, pairwise_lexLt_of_sorted_nodup t htail hnt⟩
    by_cases hl : lexLt a b = true
    · exact hl
    · have hl' : lexLt a b = false := by revert hl; cases lexLt a b <;> simp
      have : a = b := lexLt_connex a b hl' (hhead b hb)
      exact absurd (this ▸ hb) hmem

/-- C4: for every input text, `getAsanaTaskGIDsFromText` returns a
sequence of unique identifier strings in ascending lexicographic (string)
order — stated as strict pairwise lexicographic ascent, which entails
uniqueness — where each line of the input (split on `\r\n` and `\n`)
contributes at most one identifier (so the output is never longer than
the line list), determined by the first matching rule in the fixed rule
order (`lineMatch` is exactly that ordered chain, and membership in the
output coincides with being the `lineMatch` result of some line). -/
theorem c4_extractor_contract (text : Str) :
    ((getAsanaTaskGIDsFromText text).Pairwise fun a b => lexLt a b = true) ∧
    (getAsanaTaskGIDsFromText text).length ≤ (extractLines text).length ∧
    ∀ x : Str, x ∈ getAsanaTaskGIDsFromText text ↔
      ∃ l ∈ extractLines text, lineMatch l = some x := by
  have hperm2 := sortLex_perm (dedupFirst (sortLex ((extractLines text).filterMap lineMatch)))
  have hperm1 := sortLex_perm ((extractLines text).filterMap lineMatch)
  refine ⟨?_, ?_, ?_⟩
  · apply pairwise_lexLt_of_sorted_nodup
    · exact sortLex_sorted _
    · exact hperm2.symm.nodup (nodup_dedupFirstGo _ [])
  · calc (getAsanaTaskGIDsFromText text).length
        = (dedupFirst (sortLex ((extractLines text).filterMap lineMatch))).length :=
          hperm2.length_eq
      _ ≤ (sortLex ((extractLines text).filterMap lineMatch)).length :=
          length_dedupFirstGo_le _ []
      _ = ((extractLines text).filterMap lineMatch).length := hperm1.length_eq
      _ ≤ (extractLines text).length := List.length_filterMap_le _ _
  · intro x
    rw [show getAsanaTaskGIDsFromText text =
        sortLex (dedupFirst (sortLex ((extractLines text).filterMap lineMatch))) from rfl]
    rw [hperm2.mem_iff, show dedupFirst (sortLex ((extractLines text).filterMap lineMatch)) =
        dedupFirstGo [] (sortLex ((extractLines text).filterMap lineMatch)) from rfl,
      mem_dedupFirstGo]
    simp only [List.not_mem_nil, not_false_iff, and_true]
    rw [hperm1.mem_iff, List.mem_filterMap]

/-- Witness for C4 at a concrete two-line text: the contract instantiated
at an input whose two lines each contribute one identifier. -/
theorem c4_extractor_contract_witness :
    "2".toList ∈ getAsanaTaskGIDsFromText
      "https://app.asana.com/0/1/2\r\nhttps://app.asana.com/3/4".toList :=
  (c4_extractor_contract _).2.2 _ |>.mpr
    ⟨"https://app.asana.com/0/1/2".toList, by decide, by decide⟩

/-! ### String-search lemmas -/

theorem matchLit_append : ∀ p r : Str, matchLit p (p ++ r) = some r
  | [], _ => rfl
  | c :: ps, r => by simp [matchLit, matchLit_append ps r]

theorem matchLit_some_eq : ∀ p l r : Str, matchLit p l = some r → l = p ++ r
  | [], l, r, h => by simp [matchLit] at h; simp [h]
  | c :: ps, [], r, h => by simp [matchLit] at h
  | c :: ps, x :: xs, r, h => by
    by_cases hx : x = c
    · subst hx
      rw [matchLit, if_pos rfl] at h
      rw [List.cons_append, matchLit_some_eq ps xs r h]
    · rw [matchLit, if_neg hx] at h
      exact absurd h (by simp)

theorem headMatches_true_iff (n l : Str) :
    headMatches n l = true ↔ ∃ r, l = n ++ r := by
  constructor
  · intro h
    rcases Option.isSome_iff_exists.mp h with ⟨r, hr⟩
    exact ⟨r, matchLit_some_eq n l r hr⟩
  · rintro ⟨r, rfl⟩
    rw [headMatches, matchLit_append]
    rfl

theorem occAt_some_split :
    ∀ (l : Str) (n : Str) (k : Nat), occAt n l = some k →
      ∃ pre post : Str, l = pre ++ n ++ post ∧ pre.length = k
  | [], n, k, h => by
    rw [occAt] at h
    by_cases hn : n.isEmpty
    · rw [if_pos hn] at h
      have hk := Option.some_inj.mp h
      refine ⟨[], [], ?_, ?_⟩
      · simp [List.isEmpty_iff.mp hn]
      · simp only [List.length_nil]
        exact hk
    · rw [if_neg hn] at h; exact absurd h (by simp)
  | c :: t, n, k, h => by
    rw [occAt] at h
    by_cases hh : headMatches n (c :: t) = true
    · rw [if_pos hh] at h
      have hk := Option.some_inj.mp h
      rcases (headMatches_true_iff n (c :: t)).mp hh with ⟨r, hr⟩
      refine ⟨[], r, by simpa using hr, ?_⟩
      simp only [List.length_nil]
      exact hk
    · rw [if_neg hh] at h
      rcases Option.map_eq_some'.mp h with ⟨k', hk', rfl⟩
      rcases occAt_some_split t n k' hk' with ⟨pre, post, hsplit, hlen⟩
      exact ⟨c :: pre, post, by simp [hsplit], by simp [hlen]⟩

theorem occAt_some_sub {l n : Str} {k : Nat} (h : occAt n l = some k) :
    n <:+: l := by
  rcases occAt_some_split l n k h with ⟨pre, post, hsplit, -⟩
  exact ⟨pre, post, hsplit.symm⟩

theorem occAt_some_bound {l n : Str} {k : Nat} (h : occAt n l = some k) :
    k + n.length ≤ l.length := by
  rcases occAt_some_split l n k h with ⟨pre, post, hsplit, hlen⟩
  subst hlen
  rw [hsplit]
  simp [List.length_append]

theorem sub_trans_suffix {n s l : Str} (hn : n <:+: s) (h : s <:+ l) : n <:+: l := by
  rcases hn with ⟨a, b, hab⟩
  rcases h with ⟨p, hp⟩
  exact ⟨p ++ a, b, by rw [← hp, ← hab]; simp [List.append_assoc]⟩

theorem sub_trans_pre {n s l : Str} (hn : n <:+: s) (h : s <+: l) : n <:+: l := by
  rcases hn with ⟨a, b, hab⟩
  rcases h with ⟨t, ht⟩
  exact ⟨a, b ++ t, by rw [← ht, ← hab]; simp [List.append_assoc]⟩

theorem preToSub {s l : Str} (h : s <+: l) : s <:+: l := by
  rcases h with ⟨t, ht⟩
  exact ⟨[], t, by simpa using ht⟩

theorem takeWhile_take_drop (p : Char → Bool) :
    ∀ l : Str, l = l.takeWhile p ++ l.drop (l.takeWhile p).length
  | [] => rfl
  | c :: t => by
    by_cases hc : p c
    · rw [List.takeWhile_cons, if_pos hc]
      simpa using takeWhile_take_drop p t
    · rw [List.takeWhile_cons, if_neg hc]
      simp

theorem occAt_none_of_not_sub {l n : Str} (h : ¬ n <:+: l) : occAt n l = none := by
  cases hc : occAt n l with
  | none => rfl
  | some k => exact absurd (occAt_some_sub hc) h

theorem indexOfFrom_some_bound {hay n : Str} {s i : Nat}
    (h : indexOfFrom hay n s = some i) : i + n.length ≤ hay.length := by
  rw [indexOfFrom] at h
  rcases Option.map_eq_some'.mp h with ⟨k, hk, rfl⟩
  have hb := occAt_some_bound hk
  rw [List.length_drop] at hb
  have hs : min s hay.length ≤ hay.length := Nat.min_le_right _ _
  omega

theorem indexOfFrom_none_of_not_sub {hay n : Str} (h : ¬ n <:+: hay) (s : Nat) :
    indexOfFrom hay n s = none := by
  rw [indexOfFrom]
  have : occAt n (hay.drop (min s hay.length)) = none := by
    apply occAt_none_of_not_sub
    intro hinf
    exact h (sub_trans_suffix hinf (List.drop_suffix _ _))
  rw [this]
  rfl

/-! ### Behaviour of the plain-URL loop -/

theorem replaceLoop_covered (updated : Str) (url newLink : Str) :
    ∀ (fuel start : Nat) (line : Str) (cnt : Nat),
      replaceLoop updated [(0, updated.length)] url newLink fuel start line cnt = (line, cnt)
  | 0, _, _, _ => rfl
  | fuel + 1, start, line, cnt => by
    rw [replaceLoop]
    cases hidx : indexOfFrom updated url start with
    | none => rfl
    | some i =>
      have hb := indexOfFrom_some_bound hidx
      have hcond : ((0, updated.length) :: ([] : List (Nat × Nat))).any
          (fun rg => rg.1 ≤ i && i + url.length ≤ rg.2) = true := by
        simp [List.any_cons, hb]
      dsimp only
      rw [if_pos hcond]
      exact replaceLoop_covered updated url newLink fuel (i + url.length) line cnt

theorem applyPlainUrls_covered (updated : Str) :
    ∀ (m : List (Str × TaskInfo)) (line : Str) (cnt : Nat),
      applyPlainUrls updated [(0, updated.length)] m line cnt = (line, cnt)
  | [], _, _ => rfl
  | (url, info) :: rest, line, cnt => by
    rw [applyPlainUrls, replaceLoop_covered]
    exact applyPlainUrls_covered updated rest line cnt

theorem replaceLoop_absent (updated : Str) (ranges : List (Nat × Nat)) {url : Str}
    (h : ¬ url <:+: updated) (newLink : Str) :
    ∀ (fuel start : Nat) (line : Str) (cnt : Nat),
      replaceLoop updated ranges url newLink fuel start line cnt = (line, cnt)
  | 0, _, _, _ => rfl
  | fuel + 1, start, line, cnt => by
    rw [replaceLoop, indexOfFrom_none_of_not_sub h]

theorem applyPlainUrls_absent (updated : Str) (ranges : List (Nat × Nat)) :
    ∀ (m : List (Str × TaskInfo)), (∀ e ∈ m, ¬ e.1 <:+: updated) →
      ∀ (line : Str) (cnt : Nat), applyPlainUrls updated ranges m line cnt = (line, cnt)
  | [], _, _, _ => rfl
  | (url, info) :: rest, h, line, cnt => by
    rw [applyPlainUrls, replaceLoop_absent updated ranges (h (url, info) (by simp))]
    exact applyPlainUrls_absent updated ranges rest
      (fun e he => h e (List.mem_cons_of_mem _ he)) line cnt

/-! ### Map and early-return lemmas -/

theorem mapGet_some_mem :
    ∀ (m : List (Str × TaskInfo)) (url : Str) (info : TaskInfo),
      mapGet m url = some info → (url, info) ∈ m
  | [], _, _, h => by simp [mapGet] at h
  | (u, i) :: rest, url, info, h => by
    rw [mapGet] at h
    by_cases hu : url = u
    · rw [if_pos hu] at h
      subst hu
      rw [Option.some_inj.mp h]
      exact List.mem_cons_self _ _
    · rw [if_neg hu] at h
      exact List.mem_cons_of_mem _ (mapGet_some_mem rest url info h)

theorem mapGet_keyed_filterMap_none :
    ∀ (l : List Str) (g : Str → Option TaskInfo) (url : Str), g url = none →
      mapGet (l.filterMap fun u => (g u).map fun info => (u, info)) url = none
  | [], _, _, _ => rfl
  | u :: rest, g, url, h => by
    rw [List.filterMap_cons]
    cases hg : (g u).map fun info => (u, info) with
    | none => exact mapGet_keyed_filterMap_none rest g url h
    | some e =>
      rcases Option.map_eq_some'.mp hg with ⟨info, hinfo, rfl⟩
      rw [mapGet]
      by_cases hu : url = u
      · subst hu; rw [h] at hinfo; exact absurd hinfo (by simp)
      · rw [if_neg hu]
        exact mapGet_keyed_filterMap_none rest g url h

/-- A failed (or absent) lookup for a URL's identifier keeps that URL out
of `taskInfoMap`. -/
theorem mapGet_buildMap_none {body : Str} {lookup : Str → Option Str} {url : Str}
    (h : taskEntry lookup url = none) : mapGet (buildMap body lookup) url = none :=
  mapGet_keyed_filterMap_none _ (taskEntry lookup) url h

/-- When nothing resolves, `transformPRBody` returns the body unchanged
with `changesApplied = false` and `updatedCount = 0`. -/
theorem transformPRBody_of_buildMap_nil {body : Str} {lookup : Str → Option Str}
    (h : buildMap body lookup = []) :
    transformPRBody body lookup = ⟨body, false, 0⟩ := by
  by_cases hb : body = []
  · subst hb; rfl
  · rw [transformPRBody, if_neg (by simpa using hb)]
    simp only [h]
    rfl

/-- A body with no Asana URLs at all yields an empty `taskInfoMap`. -/
theorem buildMap_of_collect_nil {body : Str} (lookup : Str → Option Str)
    (h : collectAllAsanaUrls body = []) : buildMap body lookup = [] := by
  rw [buildMap, h]
  rfl

/-! ### Claims C8, C9, C3, C1, C2 -/

/-- C8: whenever no URL produced a usable title (empty `taskInfoMap`),
and in particular whenever the body contains no `https://app.asana.com/`
URL at all, `transformPRBody` returns the original body unchanged with
`changesApplied = false` and `updatedCount = 0`. -/
theorem c8_no_usable_title_returns_body_unchanged :
    (∀ (body : Str) (lookup : Str → Option Str), collectAllAsanaUrls body = [] →
      transformPRBody body lookup = ⟨body, false, 0⟩) ∧
    (∀ (body : Str) (lookup : Str → Option Str), buildMap body lookup = [] →
      transformPRBody body lookup = ⟨body, false, 0⟩) :=
  ⟨fun _ lookup h => transformPRBody_of_buildMap_nil (buildMap_of_collect_nil lookup h),
   fun _ _ h => transformPRBody_of_buildMap_nil h⟩

def c8DemoBody : Str := "Nothing to see here, just https://example.com/page and text.".toList

/-- Witness for C8: a non-empty body with an unrelated URL satisfies the
hypothesis and is returned byte-for-byte unchanged. -/
theorem c8_no_usable_title_returns_body_unchanged_witness :
    collectAllAsanaUrls c8DemoBody = [] ∧
    transformPRBody c8DemoBody (fun _ => some "Title".toList) = ⟨c8DemoBody, false, 0⟩ :=
  ⟨by decide,
   c8_no_usable_title_returns_body_unchanged.1 c8DemoBody (fun _ => some "Title".toList)
     (by decide)⟩

/-- C9: the empty body short-circuits: the result is `("", false, 0)` for
every lookup capability, and `fetchTaskTitle` is never invoked (the
invocation sequence is empty). -/
theorem c9_empty_body_short_circuit :
    (∀ lookup : Str → Option Str, transformPRBody [] lookup = ⟨[], false, 0⟩) ∧
    invokedTaskIds [] = [] :=
  ⟨fun _ => rfl, rfl⟩

/-- Witness for C9 at a concrete lookup capability. -/
theorem c9_empty_body_short_circuit_witness :
    transformPRBody [] (fun _ => some "Fix bug".toList) = ⟨[], false, 0⟩ :=
  c9_empty_body_short_circuit.1 _

def c3Body : Str :=
  "Failed: https://app.asana.com/0/123456/111111\nGood: https://app.asana.com/0/123456/222222".toList

def c3Lookup : Str → Option Str :=
  fun tid => if tid = "222222".toList then some "Task 2".toList else none

def c3Out : Str :=
  "Failed: https://app.asana.com/0/123456/111111\nGood: [Task 2](https://app.asana.com/0/123456/222222)".toList

def dupBody : Str :=
  "See https://app.asana.com/0/123456/789012 and https://app.asana.com/0/123456/789012".toList

def dupLookup : Str → Option Str :=
  fun tid => if tid = "789012".toList then some "Fix bug".toList else none

/-- What the code actually produces on `dupBody`: only the first of the
two same-line plain occurrences is converted. -/
def dupOnce : Str :=
  "See [Fix bug](https://app.asana.com/0/123456/789012) and https://app.asana.com/0/123456/789012".toList

/-- What a second application produces: the leftover plain occurrence is
converted this time. -/
def dupTwice : Str :=
  "See [Fix bug](https://app.asana.com/0/123456/789012) and [Fix bug](https://app.asana.com/0/123456/789012)".toList

def c1ScenarioBody : Str := "See https://app.asana.com/0/123456/789012".toList

def c1ScenarioOut : Str := "See [Fix bug](https://app.asana.com/0/123456/789012)".toList

/-- C1 (code bug): the single-occurrence scenario behaves as the claim
states, and the title lookup is issued exactly once for the duplicated
URL; but with two plain occurrences of the same URL on one line the code
converts only the first occurrence and reports `count = 1` — the
snapshot `updatedLine` is never refreshed and the scan cursor advances by
the replacement's length, so the claim's "each occurrence is converted"
fails on the code. -/
theorem c1_same_line_duplicate_occurrence_left_unconverted :
    transformPRBody c1ScenarioBody dupLookup = ⟨c1ScenarioOut, true, 1⟩ ∧
    invokedTaskIds dupBody = ["789012".toList] ∧
    transformPRBody dupBody dupLookup = ⟨dupOnce, true, 1⟩ ∧
    dupOnce ≠
      ("See [Fix bug](https://app.asana.com/0/123456/789012) and [Fix bug](https://app.asana.com/0/123456/789012)".toList : Str) := by
  refine ⟨by decide, by decide, by decide, by decide⟩

/-- C2 (code bug): `transformPRBody` is not idempotent on text.  On
`dupBody` (two plain occurrences of one URL on one line) the first
application converts only the first occurrence; the second application
converts the leftover plain occurrence, so the second call's `newBody`
differs from the first call's. -/
theorem c2_second_application_changes_body_again :
    transformPRBody dupBody dupLookup = ⟨dupOnce, true, 1⟩ ∧
    transformPRBody dupOnce dupLookup = ⟨dupTwice, true, 2⟩ ∧
    dupTwice ≠ dupOnce := by
  refine ⟨by decide, by decide, by decide⟩

/-! ### Markdown-link construction lemmas -/

theorem takeWhile_append_cons (p : Char → Bool) (xs : Str) (y : Char) (ys : Str)
    (hx : ∀ x ∈ xs, p x = true) (hy : p y = false) :
    (xs ++ y :: ys).takeWhile p = xs := by
  rw [List.takeWhile_append_of_pos hx, List.takeWhile_cons, hy]
  simp

theorem length_mkLinkStr (lab u : Str) :
    (mkLinkStr lab u).length = lab.length + u.length + 4 := by
  simp [mkLinkStr]
  omega

theorem matchAsanaLinkAt_mk (lab rr : Str) (hlab : lab ≠ []) (hlabNoBr : ']' ∉ lab)
    (hrr : rr ≠ []) (hrrNoPar : ')' ∉ rr) :
    matchAsanaLinkAt (mkLinkStr lab (asanaLinkHead ++ rr)) =
      some (mkLinkStr lab (asanaLinkHead ++ rr), lab, asanaLinkHead ++ rr, []) := by
  have htw : (lab ++ (']' :: '(' :: ((asanaLinkHead ++ rr) ++ [')']))).takeWhile
      (fun c => decide (c ≠ ']')) = lab := by
    apply takeWhile_append_cons
    · intro x hx
      simp only [decide_eq_true_eq]
      exact fun hxe => hlabNoBr (hxe ▸ hx)
    · simp
  have hdrop : (lab ++ (']' :: '(' :: ((asanaLinkHead ++ rr) ++ [')']))).drop lab.length =
      ']' :: '(' :: ((asanaLinkHead ++ rr) ++ [')']) := List.drop_left _ _
  have hlit : matchLit asanaLinkHead ((asanaLinkHead ++ rr) ++ [')']) =
      some (rr ++ [')']) := by
    rw [List.append_assoc, matchLit_append]
  have htw2 : (rr ++ [')']).takeWhile (fun c => decide (c ≠ ')')) = rr := by
    apply takeWhile_append_cons
    · intro x hx
      simp only [decide_eq_true_eq]
      exact fun hxe => hrrNoPar (hxe ▸ hx)
    · simp
  have hdrop2 : (rr ++ [')']).drop rr.length = [')'] := List.drop_left _ _
  rw [show mkLinkStr lab (asanaLinkHead ++ rr) =
      '[' :: (lab ++ (']' :: '(' :: ((asanaLinkHead ++ rr) ++ [')']))) from rfl]
  rw [matchAsanaLinkAt]
  simp only [htw, hdrop, hlit, htw2, hdrop2,
    List.isEmpty_eq_true, hlab, hrr, if_neg]
  rfl

theorem matchAnyLinkAt_mk (lab u : Str) (hlab : lab ≠ []) (hlabNoBr : ']' ∉ lab)
    (hu : u ≠ []) (huNoPar : ')' ∉ u) :
    matchAnyLinkAt (mkLinkStr lab u) = some (lab.length + u.length + 4, []) := by
  have htw : (lab ++ (']' :: '(' :: (u ++ [')']))).takeWhile
      (fun c => decide (c ≠ ']')) = lab := by
    apply takeWhile_append_cons
    · intro x hx
      simp only [decide_eq_true_eq]
      exact fun hxe => hlabNoBr (hxe ▸ hx)
    · simp
  have hdrop : (lab ++ (']' :: '(' :: (u ++ [')']))).drop lab.length =
      ']' :: '(' :: (u ++ [')']) := List.drop_left _ _
  have htw2 : (u ++ [')']).takeWhile (fun c => decide (c ≠ ')')) = u := by
    apply takeWhile_append_cons
    · intro x hx
      simp only [decide_eq_true_eq]
      exact fun hxe => huNoPar (hxe ▸ hx)
    · simp
  have hdrop2 : (u ++ [')']).drop u.length = [')'] := List.drop_left _ _
  rw [show mkLinkStr lab u = '[' :: (lab ++ (']' :: '(' :: (u ++ [')']))) from rfl]
  rw [matchAnyLinkAt]
  simp only [htw, hdrop, htw2, hdrop2, List.isEmpty_eq_true, hlab, hu, if_neg]
  rfl

theorem findMdRangesF_nil (fuel pos : Nat) : findMdRangesF fuel [] pos = [] := by
  cases fuel <;> rfl

theorem scanAsanaLinks_nil (fuel : Nat) : scanAsanaLinks fuel [] = [] := by
  cases fuel <;> rfl

theorem findMarkdownLinkIndices_single (lab u : Str) (hlab : lab ≠ [])
    (hlabNoBr : ']' ∉ lab) (hu : u ≠ []) (huNoPar : ')' ∉ u) :
    findMarkdownLinkIndices (mkLinkStr lab u) =
      [(0, (mkLinkStr lab u).length)] := by
  have hm := matchAnyLinkAt_mk lab u hlab hlabNoBr hu huNoPar
  rw [findMarkdownLinkIndices]
  rw [show mkLinkStr lab u = '[' :: (lab ++ (']' :: '(' :: (u ++ [')']))) from rfl] at hm ⊢
  rw [show ('[' :: (lab ++ (']' :: '(' :: (u ++ [')'])))).length + 1 =
      (('[' :: (lab ++ (']' :: '(' :: (u ++ [')'])))).length) + 1 from rfl]
  rw [findMdRangesF, hm]
  dsimp only
  rw [findMdRangesF_nil]
  simp [List.length_cons, List.length_append]
  omega

theorem scanAsanaLinks_single (lab rr : Str) (hlab : lab ≠ []) (hlabNoBr : ']' ∉ lab)
    (hrr : rr ≠ []) (hrrNoPar : ')' ∉ rr) :
    scanAsanaLinks ((mkLinkStr lab (asanaLinkHead ++ rr)).length + 1)
        (mkLinkStr lab (asanaLinkHead ++ rr)) =
      [(mkLinkStr lab (asanaLinkHead ++ rr), lab, asanaLinkHead ++ rr)] := by
  have hm := matchAsanaLinkAt_mk lab rr hlab hlabNoBr hrr hrrNoPar
  rw [show mkLinkStr lab (asanaLinkHead ++ rr) =
      '[' :: (lab ++ (']' :: '(' :: ((asanaLinkHead ++ rr) ++ [')']))) from rfl] at hm ⊢
  rw [scanAsanaLinks, hm]
  dsimp only
  rw [scanAsanaLinks_nil]

/-- A line that consists exactly of a markdown link onto a resolved URL
whose label equals the raw title or contains `[` is left unchanged by the
per-line rewrite and contributes exactly one to the counter. -/
theorem processLine_reconciled_link (m : List (Str × TaskInfo)) (info : TaskInfo)
    (lab rr : Str) (hget : mapGet m (asanaLinkHead ++ rr) = some info)
    (hcond : lab = info.title ∨ '[' ∈ lab) (hlab : lab ≠ []) (hlabNoBr : ']' ∉ lab)
    (hrr : rr ≠ []) (hrrNoPar : ')' ∉ rr) :
    processLine m (mkLinkStr lab (asanaLinkHead ++ rr)) =
      (mkLinkStr lab (asanaLinkHead ++ rr), 1) := by
  have hu : asanaLinkHead ++ rr ≠ [] := by
    intro h
    have := congrArg List.length h
    simp [asanaLinkHead] at this
  have huNoPar : ')' ∉ asanaLinkHead ++ rr := by
    intro h
    rcases List.mem_append.mp h with h | h
    · revert h; decide
    · exact hrrNoPar h
  rw [processLine, scanAsanaLinks_single lab rr hlab hlabNoBr hrr hrrNoPar]
  rw [applyMdMatches, hget]
  dsimp only
  rw [if_pos hcond, applyMdMatches]
  dsimp only
  rw [findMarkdownLinkIndices_single lab (asanaLinkHead ++ rr) hlab hlabNoBr hu huNoPar]
  rw [length_mkLinkStr]
  have := applyPlainUrls_covered (mkLinkStr lab (asanaLinkHead ++ rr)) m
    (mkLinkStr lab (asanaLinkHead ++ rr)) 1
  rw [length_mkLinkStr] at this
  exact this

def c6Body : Str := "[Old](https://app.asana.com/0/1/2)".toList

def c6Lookup : Str → Option Str :=
  fun tid => if tid = "2".toList then some "Old".toList else none

/-- C6: a line that is an existing well-formed markdown link onto a
resolved URL whose label equals the raw fetched title or contains a
literal `[` is left textually unchanged while the counter is still
incremented by one for that link; the spec's scenario
`"[Old](url)"` with `lookup("2") = "Old"` yields the unchanged body,
`changed = true`, `count = 1`. -/
theorem c6_reconciled_link_counts_without_text_change :
    (∀ (m : List (Str × TaskInfo)) (info : TaskInfo) (lab rr : Str),
      mapGet m (asanaLinkHead ++ rr) = some info →
      (lab = info.title ∨ '[' ∈ lab) → lab ≠ [] → ']' ∉ lab → rr ≠ [] → ')' ∉ rr →
      processLine m (mkLinkStr lab (asanaLinkHead ++ rr)) =
        (mkLinkStr lab (asanaLinkHead ++ rr), 1)) ∧
    transformPRBody c6Body c6Lookup = ⟨c6Body, true, 1⟩ :=
  ⟨processLine_reconciled_link, by decide⟩

/-- Witness for C6: the general statement applied at a concrete map and
link whose label equals the stored raw title. -/
theorem c6_reconciled_link_counts_without_text_change_witness :
    processLine [(asanaLinkHead ++ "0/1/2".toList,
        ⟨"2".toList, "Old".toList, "Old".toList⟩)]
      (mkLinkStr "Old".toList (asanaLinkHead ++ "0/1/2".toList)) =
      (mkLinkStr "Old".toList (asanaLinkHead ++ "0/1/2".toList), 1) :=
  c6_reconciled_link_counts_without_text_change.1
    [(asanaLinkHead ++ "0/1/2".toList, ⟨"2".toList, "Old".toList, "Old".toList⟩)]
    ⟨"2".toList, "Old".toList, "Old".toList⟩ "Old".toList "0/1/2".toList
    (by decide) (Or.inl rfl) (by decide) (by decide) (by decide) (by decide)

/-! ### Sanitization lemmas and C7 -/

theorem sanitize_eq_single_map : ∀ t : Str,
    sanitizeTitleForMarkdown t =
      t.map fun c => if c = '[' then '(' else if c = ']' then ')' else c
  | [] => rfl
  | c :: t => by
    have ih := sanitize_eq_single_map t
    simp only [sanitizeTitleForMarkdown, List.map_cons] at ih ⊢
    rw [ih]
    by_cases h1 : c = '['
    · subst h1; simp
    · by_cases h2 : c = ']'
      · subst h2; simp
      · simp [h1, h2]

theorem sanitize_no_open_bracket (t : Str) : '[' ∉ sanitizeTitleForMarkdown t := by
  rw [sanitize_eq_single_map]
  intro h
  rcases List.mem_map.mp h with ⟨c, -, hc⟩
  by_cases h1 : c = '['
  · rw [if_pos h1] at hc; exact absurd hc (by decide)
  · rw [if_neg h1] at hc
    by_cases h2 : c = ']'
    · rw [if_pos h2] at hc; exact absurd hc (by decide)
    · rw [if_neg h2] at hc; exact h1 hc

theorem sanitize_no_close_bracket (t : Str) : ']' ∉ sanitizeTitleForMarkdown t := by
  rw [sanitize_eq_single_map]
  intro h
  rcases List.mem_map.mp h with ⟨c, -, hc⟩
  by_cases h1 : c = '['
  · rw [if_pos h1] at hc; exact absurd hc (by decide)
  · rw [if_neg h1] at hc
    by_cases h2 : c = ']'
    · rw [if_pos h2] at hc; exact absurd hc (by decide)
    · rw [if_neg h2] at hc; exact h2 hc

theorem sanitize_ne_nil {t : Str} (h : t ≠ []) : sanitizeTitleForMarkdown t ≠ [] := by
  rw [sanitize_eq_single_map]
  intro hc
  exact h (List.map_eq_nil_iff.mp hc)

/-- Every entry of `taskInfoMap` stores the sanitized form of its raw
title as `safeTitle`. -/
theorem buildMap_safeTitle (body : Str) (lookup : Str → Option Str) :
    ∀ e ∈ buildMap body lookup, e.2.safeTitle = sanitizeTitleForMarkdown e.2.title := by
  intro e he
  rcases List.mem_filterMap.mp he with ⟨url, -, hmap⟩
  rcases Option.map_eq_some'.mp hmap with ⟨info, hinfo, rfl⟩
  rw [taskEntry] at hinfo
  rcases hg : getAsanaTaskGIDsFromText url with _ | ⟨tid, rest⟩
  · rw [hg] at hinfo; exact absurd hinfo (by simp)
  · rcases rest with _ | _
    · rw [hg] at hinfo
      dsimp only at hinfo
      rcases hl : lookup tid with _ | title
      · rw [hl] at hinfo; exact absurd hinfo (by simp)
      · rw [hl] at hinfo
        rw [← Option.some_inj.mp hinfo]
    · rw [hg] at hinfo; exact absurd hinfo (by simp)

/-- C7: a fetched title containing literal `[` or `]` is embedded after
bracket replacement — `sanitizeTitleForMarkdown` is exactly the map
sending `[` to `(` and `]` to `)`, its output contains no bracket, the
transformer caches it as `safeTitle` — and the spliced replacement text
`[sanitizedTitle](url)` parses as exactly one markdown link spanning the
whole spliced text (no spurious nested link boundary). -/
theorem c7_bracketed_title_sanitized_and_parseable :
    (∀ t : Str, sanitizeTitleForMarkdown t =
        t.map fun c => if c = '[' then '(' else if c = ']' then ')' else c) ∧
    (∀ t : Str, '[' ∉ sanitizeTitleForMarkdown t ∧ ']' ∉ sanitizeTitleForMarkdown t) ∧
    (∀ (body : Str) (lookup : Str → Option Str), ∀ e ∈ buildMap body lookup,
      e.2.safeTitle = sanitizeTitleForMarkdown e.2.title) ∧
    (∀ title u : Str, ('[' ∈ title ∨ ']' ∈ title) → u ≠ [] → ')' ∉ u →
      findMarkdownLinkIndices (mkLinkStr (sanitizeTitleForMarkdown title) u) =
        [(0, (mkLinkStr (sanitizeTitleForMarkdown title) u).length)]) := by
  refine ⟨sanitize_eq_single_map,
    fun t => ⟨sanitize_no_open_bracket t, sanitize_no_close_bracket t⟩,
    buildMap_safeTitle, ?_⟩
  intro title u hbr hu huNoPar
  have htne : title ≠ [] := by
    rintro rfl
    rcases hbr with h | h <;> exact absurd h (by simp)
  exact findMarkdownLinkIndices_single _ u (sanitize_ne_nil htne)
    (sanitize_no_close_bracket title) hu huNoPar

/-- Witness for C7 at the concrete bracketed title of the test suite. -/
theorem c7_bracketed_title_sanitized_and_parseable_witness :
    ('[' ∈ "Title with [brackets]".toList ∨ ']' ∈ "Title with [brackets]".toList) ∧
    findMarkdownLinkIndices
        (mkLinkStr (sanitizeTitleForMarkdown "Title with [brackets]".toList)
          "https://app.asana.com/0/123456/111111".toList) =
      [(0, (mkLinkStr (sanitizeTitleForMarkdown "Title with [brackets]".toList)
          "https://app.asana.com/0/123456/111111".toList).length)] :=
  ⟨by decide,
   c7_bracketed_title_sanitized_and_parseable.2.2.2 "Title with [brackets]".toList
     "https://app.asana.com/0/123456/111111".toList (by decide) (by decide) (by decide)⟩

/-! ### V0 rule analysis (C5) -/

/-- Well-formedness of a V0 path segment: numeric segments are non-empty
digit runs, keyword segments are one of the three literal keywords. -/
def segWFb : Seg → Bool
  | Seg.num d => !d.isEmpty && d.all Char.isDigit
  | Seg.key k => decide (k ∈ segKeywords)

abbrev SegsWF (segs : List Seg) : Prop := ∀ s ∈ segs, segWFb s = true

def renderSeg : Seg → Str
  | Seg.num d => '/' :: d
  | Seg.key k => '/' :: k

/-- Concatenation of rendered path segments — the portion of a V0 URL
after `https://app.asana.com`. -/
def renderSegs : List Seg → Str
  | [] => []
  | s :: rest => renderSeg s ++ renderSegs rest

theorem renderSegs_shape (segs : List Seg) :
    renderSegs segs = [] ∨ ∃ t, renderSegs segs = '/' :: t := by
  cases segs with
  | nil => exact Or.inl rfl
  | cons s rest =>
    right
    cases s with
    | num d => exact ⟨d ++ renderSegs rest, rfl⟩
    | key k => exact ⟨k ++ renderSegs rest, rfl⟩

theorem takeDigits_renderSegs (segs : List Seg) :
    (renderSegs segs).takeWhile Char.isDigit = [] := by
  rcases renderSegs_shape segs with h | ⟨t, h⟩
  · rw [h]
    rfl
  · rw [h]
    rfl

theorem parseSegs_render : ∀ (segs : List Seg) (fuel : Nat), SegsWF segs →
    (renderSegs segs).length < fuel → parseSegs fuel (renderSegs segs) = segs
  | [], fuel, _, hf => by
    cases fuel with
    | zero => omega
    | succ f => rfl
  | Seg.num d :: rest, fuel, hwf, hf => by
    have hd := hwf (Seg.num d) (List.mem_cons_self _ _)
    rw [segWFb, Bool.and_eq_true] at hd
    have hdne : d.isEmpty = false := by
      rcases hd with ⟨h1, -⟩
      revert h1; cases d.isEmpty <;> simp
    have hdall : ∀ c ∈ d, Char.isDigit c = true := by
      intro c hc
      exact List.all_eq_true.mp hd.2 c hc
    cases fuel with
    | zero => omega
    | succ f =>
      have htd : takeDigits (d ++ renderSegs rest) = d := by
        rw [takeDigits, List.takeWhile_append_of_pos hdall, takeDigits_renderSegs,
          List.append_nil]
      have hc : ¬ ((takeDigits (d ++ renderSegs rest)).isEmpty = true) := by
        rw [htd, hdne]
        simp
      rw [show renderSegs (Seg.num d :: rest) = '/' :: (d ++ renderSegs rest) from rfl]
      rw [parseSegs]
      rw [if_neg hc, htd, List.drop_left]
      congr 1
      apply parseSegs_render rest f (fun s hs => hwf s (List.mem_cons_of_mem _ hs))
      have hlen : (renderSegs (Seg.num d :: rest)).length < f + 1 := hf
      rw [show renderSegs (Seg.num d :: rest) = '/' :: (d ++ renderSegs rest) from rfl] at hlen
      simp [List.length_append] at hlen
      omega
  | Seg.key k :: rest, fuel, hwf, hf => by
    have hk := hwf (Seg.key k) (List.mem_cons_self _ _)
    rw [segWFb, decide_eq_true_eq] at hk
    simp only [segKeywords, List.mem_cons, List.not_mem_nil, or_false] at hk
    cases fuel with
    | zero => omega
    | succ f =>
      have hrest : parseSegs f (renderSegs rest) = rest := by
        apply parseSegs_render rest f (fun s hs => hwf s (List.mem_cons_of_mem _ hs))
        have hlen : (renderSegs (Seg.key k :: rest)).length < f + 1 := hf
        rw [show renderSegs (Seg.key k :: rest) = '/' :: (k ++ renderSegs rest) from rfl] at hlen
        simp [List.length_append] at hlen
        omega
      rw [show renderSegs (Seg.key k :: rest) = '/' :: (k ++ renderSegs rest) from rfl]
      rw [parseSegs]
      rcases hk with rfl | rfl | rfl
      · have htd : takeDigits (litBoard ++ renderSegs rest) = [] := by
          rw [show litBoard ++ renderSegs rest = 'b' :: ("oard".toList ++ renderSegs rest)
            from rfl]
          rfl
        have hc : (takeDigits (litBoard ++ renderSegs rest)).isEmpty = true := by
          rw [htd]
          rfl
        rw [if_pos hc, matchLit_append]
        dsimp only
        rw [hrest]
      · have htd : takeDigits (litSearch ++ renderSegs rest) = [] := by
          rw [show litSearch ++ renderSegs rest = 's' :: ("earch".toList ++ renderSegs rest)
            from rfl]
          rfl
        have hc : (takeDigits (litSearch ++ renderSegs rest)).isEmpty = true := by
          rw [htd]
          rfl
        have hb : matchLit litBoard (litSearch ++ renderSegs rest) = none := rfl
        rw [if_pos hc, hb, matchLit_append]
        dsimp only
        rw [hrest]
      · have htd : takeDigits (litInbox ++ renderSegs rest) = [] := by
          rw [show litInbox ++ renderSegs rest = 'i' :: ("nbox".toList ++ renderSegs rest)
            from rfl]
          rfl
        have hc : (takeDigits (litInbox ++ renderSegs rest)).isEmpty = true := by
          rw [htd]
          rfl
        have hb : matchLit litBoard (litInbox ++ renderSegs rest) = none := rfl
        have hs2 : matchLit litSearch (litInbox ++ renderSegs rest) = none := rfl
        rw [if_pos hc, hb, hs2, matchLit_append]
        dsimp only
        rw [hrest]

/-- On well-formed segment renderings, the V0 positional matcher captures
exactly the last numeric segment that is not the first segment (and fails
when no such segment exists). -/
theorem v0Core_render (segs : List Seg) (hwf : SegsWF segs) :
    v0Core (renderSegs segs) = tailLastNum segs := by
  rw [v0Core, parseSegs_render segs ((renderSegs segs).length + 1) hwf (Nat.lt_succ_self _)]

/-- The extraction chain with the V0 stage removed: what `lineMatch`
degrades to when the line contains `/task/`. -/
def lineMatchSansV0 (line : Str) : Option Str :=
  match rule1 line with
  | some g => some g
  | none =>
    match rule2 line with
    | some g => some g
    | none =>
      match rule3 line with
      | some g => some g
      | none => rule5 line

/-- Whenever the line contains the `/task/` marker, the V0 rule
contributes nothing: the chain behaves as if the rule were absent. -/
theorem lineMatch_suppressed (line : Str) (h : hasSub taskMarker line = true) :
    lineMatch line = lineMatchSansV0 line := by
  cases h1 : rule1 line <;> cases h2 : rule2 line <;> cases h3 : rule3 line <;>
    simp [lineMatch, lineMatchSansV0, h1, h2, h3, h]

def c5CexLine : Str := "https://app.asana.com/123456".toList

/-- Counterexample to C5 as stated: a line that matches no earlier rule
and consists of a target-domain URL whose path is a single numeric
segment.  The claim says the extractor takes the last numeric path
segment (`123456`) as the identifier, but the V0 regex needs at least one
segment before the capturing group, so the extractor yields nothing. -/
theorem c5_counterexample_single_segment :
    lineMatch c5CexLine = none ∧
    getAsanaTaskGIDsFromText c5CexLine = [] ∧
    "123456".toList ∉ getAsanaTaskGIDsFromText c5CexLine := by
  refine ⟨by decide, by decide, by decide⟩

/-- C5 (amended): on a line that matches no earlier rule and consists of
a target-domain URL made purely of numeric/keyword path segments, the
legacy V0 rule takes as identifier the last numeric segment *that is not
the first segment*, yielding nothing when every numeric segment is in
first position; and the rule yields no identifier whenever the line
contains `/task/` (the chain then behaves as if the rule were absent).
The chain instance shows the amended capture on a two-segment-prefix
URL. -/
theorem c5_amended_v0_last_tail_numeric :
    (∀ segs : List Seg, SegsWF segs → v0Core (renderSegs segs) = tailLastNum segs) ∧
    (∀ line : Str, hasSub taskMarker line = true → lineMatch line = lineMatchSansV0 line) ∧
    lineMatch "https://app.asana.com/0/123456/789012".toList = some "789012".toList :=
  ⟨v0Core_render, lineMatch_suppressed, by decide⟩

/-- Witness for C5 (amended) at concrete segments `/0/123456/789012`. -/
theorem c5_amended_v0_last_tail_numeric_witness :
    SegsWF [Seg.num "0".toList, Seg.num "123456".toList, Seg.num "789012".toList] ∧
    v0Core (renderSegs [Seg.num "0".toList, Seg.num "123456".toList,
      Seg.num "789012".toList]) = some "789012".toList :=
  ⟨by decide,
   (c5_amended_v0_last_tail_numeric.1 _ (by decide)).trans (by decide)⟩

/-! ### Frame lemmas (C10) -/

theorem matchAsanaLinkAt_split {l full lab url rest : Str}
    (h : matchAsanaLinkAt l = some (full, lab, url, rest)) :
    l = full ++ rest ∧ url <:+: full := by
  unfold matchAsanaLinkAt at h
  split at h
  next r =>
    dsimp only at h
    split at h
    next => exact absurd h (by simp)
    next hemp =>
      split at h
      next r2 hdrop =>
        cases hlit : matchLit asanaLinkHead r2 with
        | none => rw [hlit] at h; exact absurd h (by simp)
        | some r3 =>
          rw [hlit] at h
          dsimp only at h
          split at h
          next => exact absurd h (by simp)
          next hemp2 =>
            split at h
            next rest2 hdrop2 =>
              simp only [Option.some_inj, Prod.mk.injEq] at h
              obtain ⟨h1, h2, h3, h4⟩ := h
              subst h1
              subst h2
              subst h3
              subst h4
              constructor
              · have hr : r = (r.takeWhile fun c => decide (c ≠ ']')) ++
                    r.drop (r.takeWhile fun c => decide (c ≠ ']')).length :=
                  takeWhile_take_drop _ r
                have hr3 : r3 = (r3.takeWhile fun c => decide (c ≠ ')')) ++
                    r3.drop (r3.takeWhile fun c => decide (c ≠ ')')).length :=
                  takeWhile_take_drop _ r3
                have hr2 : r2 = asanaLinkHead ++ r3 := matchLit_some_eq _ _ _ hlit
                nth_rewrite 1 [hr]
                rw [hdrop, hr2]
                nth_rewrite 1 [hr3]
                rw [hdrop2]
                simp [mkLinkStr, List.append_assoc]
              · refine ⟨'[' :: (r.takeWhile fun c => decide (c ≠ ']')) ++ [']', '('],
                  [')'], ?_⟩
                simp [mkLinkStr, List.append_assoc]
            next => exact absurd h (by simp)
      next hdrop => exact absurd h (by simp)
  next => exact absurd h (by simp)

theorem scanAsanaLinks_zero (l : Str) : scanAsanaLinks 0 l = [] := by
  cases l <;> rfl

theorem scanAsanaLinks_sub :
    ∀ (fuel : Nat) (l full lab url : Str), (full, lab, url) ∈ scanAsanaLinks fuel l →
      url <:+: l ∧ full <:+: l
  | 0, l, full, lab, url, h => by
    rw [scanAsanaLinks_zero] at h
    exact absurd h (List.not_mem_nil _)
  | fuel + 1, [], full, lab, url, h => by
    rw [scanAsanaLinks_nil] at h
    exact absurd h (List.not_mem_nil _)
  | fuel + 1, c :: t, full, lab, url, h => by
    rw [scanAsanaLinks] at h
    cases hm : matchAsanaLinkAt (c :: t) with
    | none =>
      rw [hm] at h
      have ih := scanAsanaLinks_sub fuel t full lab url h
      exact ⟨sub_trans_suffix ih.1 (List.suffix_cons c t),
        sub_trans_suffix ih.2 (List.suffix_cons c t)⟩
    | some q =>
      obtain ⟨f2, lab2, url2, rest⟩ := q
      rw [hm] at h
      dsimp only at h
      have hsplit := matchAsanaLinkAt_split hm
      rcases List.mem_cons.mp h with heq | htail
      · simp only [Prod.mk.injEq] at heq
        obtain ⟨h1, h2, h3⟩ := heq
        subst h1
        subst h3
        have hfullpre : full <+: c :: t := ⟨rest, hsplit.1.symm⟩
        exact ⟨sub_trans_pre hsplit.2 hfullpre, preToSub hfullpre⟩
      · have ih := scanAsanaLinks_sub fuel rest full lab url htail
        have hrest : rest <:+ c :: t := ⟨f2, hsplit.1.symm⟩
        exact ⟨sub_trans_suffix ih.1 hrest, sub_trans_suffix ih.2 hrest⟩

theorem applyMdMatches_none (m : List (Str × TaskInfo)) :
    ∀ (mts : List (Str × Str × Str)) (line : Str) (cnt : Nat),
      (∀ t ∈ mts, mapGet m t.2.2 = none) →
      applyMdMatches m mts line cnt = (line, cnt)
  | [], _, _, _ => rfl
  | (full, lab, url) :: rest, line, cnt, h => by
    rw [applyMdMatches, h (full, lab, url) (List.mem_cons_self _ _)]
    exact applyMdMatches_none m rest line cnt
      (fun t ht => h t (List.mem_cons_of_mem _ ht))

/-- A line in which no resolved URL occurs as a substring is left
untouched by the per-line rewrite and contributes nothing to the count. -/
theorem processLine_frame (m : List (Str × TaskInfo)) (line : Str)
    (h : ∀ e ∈ m, ¬ e.1 <:+: line) : processLine m line = (line, 0) := by
  have hmd : applyMdMatches m (scanAsanaLinks (line.length + 1) line) line 0 = (line, 0) := by
    apply applyMdMatches_none
    rintro ⟨full, lab, url⟩ ht
    cases hg : mapGet m url with
    | none => rfl
    | some info =>
      have hmem := mapGet_some_mem m url info hg
      have hinf := (scanAsanaLinks_sub (line.length + 1) line full lab url ht).1
      exact absurd hinf (h _ hmem)
  simp only [processLine, hmd]
  exact applyPlainUrls_absent line _ m h line 0

theorem getSubst_pres (p : Char → Prop) :
    ∀ (repl matched pre post : Str), (∀ c ∈ matched, p c) → (∀ c ∈ pre, p c) →
      (∀ c ∈ post, p c) → (∀ c ∈ repl, p c) →
      ∀ c ∈ getSubst matched pre post repl, p c
  | [], matched, pre, post, _, _, _, _ => by
    intro c hc
    rw [show getSubst matched pre post [] = [] from rfl] at hc
    exact absurd hc (List.not_mem_nil c)
  | c0 :: rest, matched, pre, post, hm, hpre, hpost, hrepl => by
    intro c hc
    rw [getSubst.eq_def] at hc
    dsimp only at hc
    by_cases h0 : c0 = '$'
    · rw [if_pos h0] at hc
      cases rest with
      | nil =>
        rcases List.mem_singleton.mp hc with rfl
        exact h0 ▸ hrepl c0 (List.mem_cons_self _ _)
      | cons c2 rest2 =>
        dsimp only at hc
        have hrepl2 : ∀ x ∈ rest2, p x :=
          fun x hx => hrepl x (List.mem_cons_of_mem _ (List.mem_cons_of_mem _ hx))
        have hrec := getSubst_pres p rest2 matched pre post hm hpre hpost hrepl2
        by_cases h2 : c2 = '$'
        · rw [if_pos h2] at hc
          rcases List.mem_cons.mp hc with rfl | hc
          · exact h0 ▸ hrepl c0 (List.mem_cons_self _ _)
          · exact hrec c hc
        · rw [if_neg h2] at hc
          by_cases h3 : c2 = '&'
          · rw [if_pos h3] at hc
            rcases List.mem_append.mp hc with hc | hc
            · exact hm c hc
            · exact hrec c hc
          · rw [if_neg h3] at hc
            by_cases h4 : c2 = Char.ofNat 96
            · rw [if_pos h4] at hc
              rcases List.mem_append.mp hc with hc | hc
              · exact hpre c hc
              · exact hrec c hc
            · rw [if_neg h4] at hc
              by_cases h5 : c2 = Char.ofNat 39
              · rw [if_pos h5] at hc
                rcases List.mem_append.mp hc with hc | hc
                · exact hpost c hc
                · exact hrec c hc
              · rw [if_neg h5] at hc
                rcases List.mem_cons.mp hc with rfl | hc
                · exact h0 ▸ hrepl c0 (List.mem_cons_self _ _)
                · rcases List.mem_cons.mp hc with rfl | hc
                  · exact hrepl c (List.mem_cons_of_mem _ (List.mem_cons_self _ _))
                  · exact hrec c hc
    · rw [if_neg h0] at hc
      rcases List.mem_cons.mp hc with rfl | hc
      · exact hrepl c (List.mem_cons_self _ _)
      · exact getSubst_pres p rest matched pre post hm hpre hpost
          (fun x hx => hrepl x (List.mem_cons_of_mem _ hx)) c hc

theorem replaceFirst_pres (p : Char → Prop) (hay needle repl : Str)
    (hhay : ∀ c ∈ hay, p c) (hneedle : ∀ c ∈ needle, p c) (hrepl : ∀ c ∈ repl, p c) :
    ∀ c ∈ replaceFirst hay needle repl, p c := by
  intro c hc
  rw [replaceFirst] at hc
  cases hocc : occAt needle hay with
  | none => rw [hocc] at hc; exact hhay c hc
  | some i =>
    rw [hocc] at hc
    dsimp only at hc
    rcases List.mem_append.mp hc with hc | hc
    · rcases List.mem_append.mp hc with hc | hc
      · exact hhay c (List.take_subset _ _ hc)
      · exact getSubst_pres p repl needle (hay.take i) (hay.drop (i + needle.length))
          hneedle (fun x hx => hhay x (List.take_subset _ _ hx))
          (fun x hx => hhay x (List.drop_subset _ _ hx)) hrepl c hc
    · exact hhay c (List.drop_subset _ _ hc)

theorem mkLinkStr_pres (p : Char → Prop) (safe url : Str)
    (hs : ∀ c ∈ safe, p c) (hu : ∀ c ∈ url, p c)
    (h1 : p '[') (h2 : p ']') (h3 : p '(') (h4 : p ')') :
    ∀ c ∈ mkLinkStr safe url, p c := by
  intro c hc
  rw [mkLinkStr] at hc
  rcases List.mem_cons.mp hc with rfl | hc
  · exact h1
  rcases List.mem_append.mp hc with hc | hc
  · exact hs c hc
  rcases List.mem_cons.mp hc with rfl | hc
  · exact h2
  rcases List.mem_cons.mp hc with rfl | hc
  · exact h3
  rcases List.mem_append.mp hc with hc | hc
  · exact hu c hc
  · rcases List.mem_singleton.mp hc with rfl
    exact h4

theorem applyMdMatches_pres (p : Char → Prop) (m : List (Str × TaskInfo))
    (hm : ∀ e ∈ m, (∀ c ∈ e.1, p c) ∧ (∀ c ∈ e.2.safeTitle, p c))
    (h1 : p '[') (h2 : p ']') (h3 : p '(') (h4 : p ')') :
    ∀ (mts : List (Str × Str × Str)) (line : Str) (cnt : Nat),
      (∀ t ∈ mts, ∀ c ∈ t.1, p c) → (∀ c ∈ line, p c) →
      ∀ c ∈ (applyMdMatches m mts line cnt).1, p c
  | [], line, cnt, hmts, hline => hline
  | (full, lab, url) :: rest, line, cnt, hmts, hline => by
    rw [applyMdMatches]
    have hrest : ∀ t ∈ rest, ∀ c ∈ t.1, p c :=
      fun t ht => hmts t (List.mem_cons_of_mem _ ht)
    cases hg : mapGet m url with
    | none => exact applyMdMatches_pres p m hm h1 h2 h3 h4 rest line cnt hrest hline
    | some info =>
      dsimp only
      by_cases hcond : lab = info.title ∨ '[' ∈ lab
      · rw [if_pos hcond]
        exact applyMdMatches_pres p m hm h1 h2 h3 h4 rest line (cnt + 1) hrest hline
      · rw [if_neg hcond]
        have hmem := mapGet_some_mem m url info hg
        have hinfo := hm _ hmem
        apply applyMdMatches_pres p m hm h1 h2 h3 h4 rest _ (cnt + 1) hrest
        apply replaceFirst_pres p line full (mkLinkStr info.safeTitle url) hline
          (hmts (full, lab, url) (List.mem_cons_self _ _))
        exact mkLinkStr_pres p info.safeTitle url hinfo.2 hinfo.1 h1 h2 h3 h4

theorem replaceLoop_pres (p : Char → Prop) (updated : Str) (ranges : List (Nat × Nat))
    (url newLink : Str) (hupd : ∀ c ∈ updated, p c) (hnl : ∀ c ∈ newLink, p c) :
    ∀ (fuel start : Nat) (line : Str) (cnt : Nat), (∀ c ∈ line, p c) →
      ∀ c ∈ (replaceLoop updated ranges url newLink fuel start line cnt).1, p c
  | 0, start, line, cnt, hline => hline
  | fuel + 1, start, line, cnt, hline => by
    rw [replaceLoop]
    cases hidx : indexOfFrom updated url start with
    | none => exact hline
    | some i =>
      dsimp only
      by_cases hcov : (ranges.any fun rg =>
          decide (rg.1 ≤ i) && decide (i + url.length ≤ rg.2)) = true
      · rw [if_pos hcov]
        exact replaceLoop_pres p updated ranges url newLink hupd hnl fuel
          (i + url.length) line cnt hline
      · rw [if_neg hcov]
        apply replaceLoop_pres p updated ranges url newLink hupd hnl fuel
          (i + newLink.length) _ (cnt + 1)
        intro c hc
        rcases List.mem_append.mp hc with hc | hc
        · rcases List.mem_append.mp hc with hc | hc
          · exact hupd c (List.take_subset _ _ hc)
          · exact hnl c hc
        · exact hupd c (List.drop_subset _ _ hc)

theorem applyPlainUrls_pres (p : Char → Prop) (updated : Str)
    (ranges : List (Nat × Nat)) (hupd : ∀ c ∈ updated, p c)
    (h1 : p '[') (h2 : p ']') (h3 : p '(') (h4 : p ')') :
    ∀ (m : List (Str × TaskInfo)),
      (∀ e ∈ m, (∀ c ∈ e.1, p c) ∧ (∀ c ∈ e.2.safeTitle, p c)) →
      ∀ (line : Str) (cnt : Nat), (∀ c ∈ line, p c) →
      ∀ c ∈ (applyPlainUrls updated ranges m line cnt).1, p c
  | [], _, line, cnt, hline => hline
  | (url, info) :: rest, hm, line, cnt, hline => by
    rw [applyPlainUrls]
    have he := hm _ (List.mem_cons_self _ _)
    apply applyPlainUrls_pres p updated ranges hupd h1 h2 h3 h4 rest
      (fun e hee => hm e (List.mem_cons_of_mem _ hee))
    exact replaceLoop_pres p updated ranges url (mkLinkStr info.safeTitle url) hupd
      (mkLinkStr_pres p info.safeTitle url he.2 he.1 h1 h2 h3 h4)
      (updated.length + 2) 0 line cnt hline

theorem processLine_pres (p : Char → Prop) (m : List (Str × TaskInfo)) (line : Str)
    (hm : ∀ e ∈ m, (∀ c ∈ e.1, p c) ∧ (∀ c ∈ e.2.safeTitle, p c))
    (h1 : p '[') (h2 : p ']') (h3 : p '(') (h4 : p ')')
    (hline : ∀ c ∈ line, p c) : ∀ c ∈ (processLine m line).1, p c := by
  have hfulls : ∀ t ∈ scanAsanaLinks (line.length + 1) line, ∀ c ∈ t.1, p c := by
    rintro ⟨full, lab, url⟩ ht c hc
    have := (scanAsanaLinks_sub (line.length + 1) line full lab url ht).2
    rcases this with ⟨s, t2, hst⟩
    apply hline
    rw [← hst]
    simp only [List.mem_append]
    exact Or.inl (Or.inr hc)
  have hmd := applyMdMatches_pres p m hm h1 h2 h3 h4
    (scanAsanaLinks (line.length + 1) line) line 0 hfulls hline
  simp only [processLine]
  exact applyPlainUrls_pres p _ _ hmd h1 h2 h3 h4 m hm _ _ hmd

theorem splitNL_no_newline : ∀ (s : Str), ∀ piece ∈ splitNL s, '\n' ∉ piece
  | [] => by
    intro piece hp
    rw [splitNL] at hp
    rcases List.mem_singleton.mp hp with rfl
    exact List.not_mem_nil _
  | c :: rest => by
    intro piece hp
    rw [splitNL] at hp
    by_cases hc : c = '\n'
    · rw [if_pos hc] at hp
      rcases List.mem_cons.mp hp with rfl | hp
      · exact List.not_mem_nil _
      · exact splitNL_no_newline rest piece hp
    · rw [if_neg hc] at hp
      cases hs : splitNL rest with
      | nil =>
        rw [hs] at hp
        rcases List.mem_singleton.mp hp with rfl
        intro hmem
        rcases List.mem_singleton.mp hmem with rfl
        exact hc rfl
      | cons h0 t0 =>
        rw [hs] at hp
        rcases List.mem_cons.mp hp with rfl | hp
        · intro hmem
          rcases List.mem_cons.mp hmem with rfl | hmem
          · exact hc rfl
          · exact splitNL_no_newline rest h0 (hs ▸ List.mem_cons_self _ _) hmem
        · exact splitNL_no_newline rest piece (hs ▸ List.mem_cons_of_mem _ hp)

theorem splitNL_ne_nil : ∀ s : Str, splitNL s ≠ []
  | [] => by rw [splitNL]; simp
  | c :: rest => by
    rw [splitNL]
    by_cases hc : c = '\n'
    · rw [if_pos hc]; simp
    · rw [if_neg hc]
      cases hs : splitNL rest <;> simp

theorem splitNL_of_no_newline : ∀ l : Str, '\n' ∉ l → splitNL l = [l]
  | [], _ => rfl
  | c :: rest, h => by
    have hc : ¬ c = '\n' := fun hx => h (hx ▸ List.mem_cons_self _ _)
    rw [splitNL, if_neg hc,
      splitNL_of_no_newline rest (fun hx => h (List.mem_cons_of_mem _ hx))]

theorem splitNL_append_newline :
    ∀ (l : Str), '\n' ∉ l → ∀ r : Str, splitNL (l ++ '\n' :: r) = l :: splitNL r
  | [], _, r => by
    rw [List.nil_append, splitNL, if_pos rfl]
  | c :: l2, h, r => by
    have hc : ¬ c = '\n' := fun hx => h (hx ▸ List.mem_cons_self _ _)
    rw [List.cons_append, splitNL, if_neg hc,
      splitNL_append_newline l2 (fun hx => h (List.mem_cons_of_mem _ hx)) r]

theorem splitNL_joinNL :
    ∀ ls : List Str, ls ≠ [] → (∀ l ∈ ls, '\n' ∉ l) → splitNL (joinNL ls) = ls
  | [], hne, _ => absurd rfl hne
  | [l], _, h => by
    rw [joinNL, splitNL_of_no_newline l (h l (List.mem_cons_self _ _))]
  | l :: l2 :: rest, _, h => by
    rw [show joinNL (l :: l2 :: rest) = l ++ '\n' :: joinNL (l2 :: rest) from rfl]
    rw [splitNL_append_newline l (h l (List.mem_cons_self _ _))]
    rw [splitNL_joinNL (l2 :: rest) (by simp)
      (fun x hx => h x (List.mem_cons_of_mem _ hx))]

theorem collectUrlsF_shape :
    ∀ (fuel : Nat) (l u : Str), u ∈ collectUrlsF fuel l →
      ∃ run : Str, run ≠ [] ∧ u = asanaLinkHead ++ run ∧ ∀ c ∈ run, urlRunChar c = true
  | 0, l, u, h => by
    rw [show collectUrlsF 0 l = [] from by cases l <;> rfl] at h
    exact absurd h (List.not_mem_nil _)
  | fuel + 1, [], u, h => by
    rw [show collectUrlsF (fuel + 1) [] = [] from rfl] at h
    exact absurd h (List.not_mem_nil _)
  | fuel + 1, c :: t, u, h => by
    rw [collectUrlsF] at h
    cases hm : matchLit asanaLinkHead (c :: t) with
    | none =>
      rw [hm] at h
      exact collectUrlsF_shape fuel t u h
    | some r =>
      rw [hm] at h
      dsimp only at h
      by_cases hrun : (r.takeWhile urlRunChar).isEmpty = true
      · rw [if_pos hrun] at h
        exact collectUrlsF_shape fuel t u h
      · rw [if_neg hrun] at h
        rcases List.mem_cons.mp h with rfl | h
        · refine ⟨r.takeWhile urlRunChar, ?_, rfl, ?_⟩
          · intro hx
            rw [hx] at hrun
            exact hrun rfl
          · intro x hx
            exact List.mem_takeWhile_imp hx
        · exact collectUrlsF_shape fuel (r.drop (r.takeWhile urlRunChar).length) u h

theorem buildMap_key_shape (body : Str) (lookup : Str → Option Str) :
    ∀ e ∈ buildMap body lookup,
      ∃ run : Str, run ≠ [] ∧ e.1 = asanaLinkHead ++ run ∧
        ∀ c ∈ run, urlRunChar c = true := by
  intro e he
  rcases List.mem_filterMap.mp he with ⟨url, hurl, hmap⟩
  rcases Option.map_eq_some'.mp hmap with ⟨info, -, rfl⟩
  have hmem : url ∈ collectAllAsanaUrls body :=
    ((mem_dedupFirstGo (collectAllAsanaUrls body) [] url).mp hurl).1
  exact collectUrlsF_shape _ _ url hmem

theorem buildMap_key_no_newline (body : Str) (lookup : Str → Option Str) :
    ∀ e ∈ buildMap body lookup, '\n' ∉ e.1 := by
  intro e he hmem
  rcases buildMap_key_shape body lookup e he with ⟨run, -, hshape, hrun⟩
  rw [hshape] at hmem
  rcases List.mem_append.mp hmem with hmem | hmem
  · revert hmem; decide
  · have := hrun _ hmem
    exact absurd this (by decide)

def c10Body : Str := "https://app.asana.com/0/1/2\nB".toList

def c10Lookup : Str → Option Str :=
  fun tid => if tid = "2".toList then some "X\nY".toList else none

/-- Counterexample to C10 as stated: with a resolved title containing a
newline, the untouched line `"B"` (line index 1 of the input, containing
no resolved URL) does not appear at line index 1 of `newBody` — the
spliced title shifts every later line down. -/
theorem c10_counterexample_newline_title :
    (splitNL c10Body).get? 1 = some "B".toList ∧
    (∀ e ∈ buildMap c10Body c10Lookup, ¬ e.1 <:+: ("B".toList : Str)) ∧
    (splitNL (transformPRBody c10Body c10Lookup).body).get? 1 ≠ some "B".toList := by
  refine ⟨by decide, by decide, by decide⟩

/-- C10 (amended): provided no resolved title contains a newline, every
`\n`-separated line of the input in which no resolved URL occurs as a
substring appears character-for-character unchanged at the same line
position in `newBody` (and the line count is preserved). -/
theorem c10_amended_frame_lines_preserved (body : Str) (lookup : Str → Option Str)
    (hNL : ∀ e ∈ buildMap body lookup, '\n' ∉ e.2.safeTitle) :
    (splitNL (transformPRBody body lookup).body).length = (splitNL body).length ∧
    ∀ (i : Nat) (li : Str), (splitNL body).get? i = some li →
      (∀ e ∈ buildMap body lookup, ¬ e.1 <:+: li) →
      (splitNL (transformPRBody body lookup).body).get? i = some li := by
  by_cases hb : body = []
  · subst hb
    rw [show transformPRBody [] lookup = ⟨[], false, 0⟩ from rfl]
    exact ⟨rfl, fun i li hget _ => hget⟩
  · by_cases hm : buildMap body lookup = []
    · rw [transformPRBody_of_buildMap_nil hm]
      exact ⟨rfl, fun i li hget _ => hget⟩
    · have hbody : (transformPRBody body lookup).body =
          joinNL ((splitNL body).map fun ln => (processLine (buildMap body lookup) ln).1) := by
        simp only [transformPRBody, List.isEmpty_eq_true, hb, hm, if_neg,
          if_false, List.map_map]
        rfl
      have hentries : ∀ e ∈ buildMap body lookup,
          (∀ c ∈ e.1, ¬ c = '\n') ∧ (∀ c ∈ e.2.safeTitle, ¬ c = '\n') := by
        intro e he
        refine ⟨fun c hc hceq => ?_, fun c hc hceq => ?_⟩
        · exact buildMap_key_no_newline body lookup e he (hceq ▸ hc)
        · exact hNL e he (hceq ▸ hc)
      have hpieces : ∀ piece ∈ (splitNL body).map
          (fun ln => (processLine (buildMap body lookup) ln).1), '\n' ∉ piece := by
        intro piece hp
        rcases List.mem_map.mp hp with ⟨ln, hln, rfl⟩
        intro hmem
        exact processLine_pres (fun c => ¬ c = '\n') (buildMap body lookup) ln hentries
          (by decide) (by decide) (by decide) (by decide)
          (fun c hc hceq => splitNL_no_newline body ln hln (hceq ▸ hc))
          '\n' hmem rfl
      have hnnil : (splitNL body).map
          (fun ln => (processLine (buildMap body lookup) ln).1) ≠ [] := by
        intro hx
        exact splitNL_ne_nil body (List.map_eq_nil_iff.mp hx)
      have hsplit : splitNL (transformPRBody body lookup).body =
          (splitNL body).map (fun ln => (processLine (buildMap body lookup) ln).1) := by
        rw [hbody]
        exact splitNL_joinNL _ hnnil hpieces
      constructor
      · rw [hsplit, List.length_map]
      · intro i li hget hfr
        rw [hsplit, List.get?_map, hget]
        have hframe := processLine_frame (buildMap body lookup) li hfr
        simp only [Option.map_some']
        rw [hframe]

def c10WBody : Str := "https://app.asana.com/0/1/2\nB".toList

def c10WLookup : Str → Option Str :=
  fun tid => if tid = "2".toList then some "T".toList else none

/-- Witness for C10 (amended): with a newline-free resolved title, the
URL-free second line is preserved at position 1. -/
theorem c10_amended_frame_lines_preserved_witness :
    (∀ e ∈ buildMap c10WBody c10WLookup, '\n' ∉ e.2.safeTitle) ∧
    (splitNL (transformPRBody c10WBody c10WLookup).body).get? 1 = some "B".toList :=
  ⟨by decide,
   (c10_amended_frame_lines_preserved c10WBody c10WLookup (by decide)).2 1 "B".toList
     (by decide) (by decide)⟩

/-! ### C3 revisited: counterexample and amended isolation -/

def c3CexBody : Str :=
  "A https://app.asana.com/0/1/2 and B https://app.asana.com/0/1/22".toList

def c3CexLookup : Str → Option Str :=
  fun tid => if tid = "2".toList then some "T".toList else none

def c3CexFailUrl : Str := "https://app.asana.com/0/1/22".toList

/-- What the code produces on the overlapping-URL body: the resolved URL
is rewritten where it occurs inside the failing URL's occurrence (and the
legitimate first occurrence is lost to the snapshot rebuild). -/
def c3CexOut : Str :=
  "A https://app.asana.com/0/1/2 and B [T](https://app.asana.com/0/1/2)2".toList

set_option maxRecDepth 4096 in
/-- Counterexample to C3 as stated: when one collected URL is a proper
prefix of another and only the shorter one resolves, the plain-URL pass
finds the resolved URL as a substring *inside* the failing URL's
occurrence and rewrites it there (also counting it).  The failing URL
`https://app.asana.com/0/1/22` occurs in the input but its occurrence is
not left as in the input — it no longer occurs in the output — and the
rewrite inside it contributes to the count (count 2, not 1). -/
theorem c3_counterexample_overlapping_urls :
    getAsanaTaskGIDsFromText c3CexFailUrl = ["22".toList] ∧
    c3CexLookup "22".toList = none ∧
    c3CexFailUrl <:+: c3CexBody ∧
    transformPRBody c3CexBody c3CexLookup = ⟨c3CexOut, true, 2⟩ ∧
    ¬ c3CexFailUrl <:+: c3CexOut := by
  refine ⟨by decide, by decide, by decide, by decide, by decide⟩

/-- C3 (amended): a lookup that fails for some identifier never aborts
the transform, which always returns a well-formed result.  (i) A URL
whose single extracted identifier fails to resolve is dropped from
`taskInfoMap`, so no rewrite is keyed by it; (ii) when every lookup
fails the body is returned untouched with count 0; (iii) every line in
which no *resolved* URL occurs as a substring — in particular a line
containing only failing URLs, provided no resolved URL is a substring of
it — is left exactly as in the input and contributes nothing to the
count; (iv) other resolved identifiers in the same body are still
processed normally (concrete mixed body: the failing URL's line is
byte-identical, the resolved one is rewritten, count 1). -/
theorem c3_amended_lookup_failure_isolated :
    (∀ (body : Str) (lookup : Str → Option Str) (url tid : Str),
      getAsanaTaskGIDsFromText url = [tid] → lookup tid = none →
      mapGet (buildMap body lookup) url = none) ∧
    (∀ (body : Str) (lookup : Str → Option Str), buildMap body lookup = [] →
      transformPRBody body lookup = ⟨body, false, 0⟩) ∧
    (∀ (body li : Str) (lookup : Str → Option Str),
      (∀ e ∈ buildMap body lookup, ¬ e.1 <:+: li) →
      processLine (buildMap body lookup) li = (li, 0)) ∧
    transformPRBody c3Body c3Lookup = ⟨c3Out, true, 1⟩ := by
  refine ⟨?_, fun _ _ h => transformPRBody_of_buildMap_nil h,
    fun body li lookup h => processLine_frame _ li h, by decide⟩
  intro body lookup url tid h1 h2
  apply mapGet_buildMap_none
  rw [taskEntry, h1]
  dsimp only
  rw [h2]

def c3FailUrl : Str := "https://app.asana.com/0/123456/111111".toList

def c3FailLine : Str := "Failed: https://app.asana.com/0/123456/111111".toList

/-- Witness for C3 (amended): the map-absence and untouched-line parts
applied to the mixed body's failing URL and its line. -/
theorem c3_amended_lookup_failure_isolated_witness :
    getAsanaTaskGIDsFromText c3FailUrl = ["111111".toList] ∧
    c3Lookup "111111".toList = none ∧
    (∀ e ∈ buildMap c3Body c3Lookup, ¬ e.1 <:+: c3FailLine) ∧
    mapGet (buildMap c3Body c3Lookup) c3FailUrl = none ∧
    processLine (buildMap c3Body c3Lookup) c3FailLine = (c3FailLine, 0) :=
  ⟨by decide, by decide, by decide,
   c3_amended_lookup_failure_isolated.1 c3Body c3Lookup c3FailUrl "111111".toList
     (by decide) (by decide),
   c3_amended_lookup_failure_isolated.2.2.1 c3Body c3FailLine c3Lookup (by decide)⟩
